import Mathlib

/-!
Verification development for the Java call-chain analysis engine.

This file gives a shallow embedding, in Lean 4, of the parts of the engine
that the checked properties talk about:

* `biz/service/call_chain_analysis/method_call_analyzer.py`
  (`MethodCallAnalyzer`): the caller-mapping inverse index, the two bounded
  breadth-first traversals (`get_method_call_chain_by_depth`,
  `get_method_callers_by_height`), `get_complete_method_relationship` and
  the nested-graph assembly (`get_nested_method_relationship`,
  `_build_nested_calls_out`, `_build_nested_calls_in`).
* `biz/service/call_chain_analysis/pmd_report_formatter.py`
  (`PMDReportFormatter.filter_by_level`).

Python dicts are modelled as association lists that keep insertion order
(which is what Python dicts give when serialized or iterated); Python sets
of visited signatures are modelled as `List String` used only through
membership; a raised exception is modelled as `Except.error`.
-/

/-! ## Association-list primitives (Python dict operations) -/

/-- `d[key]` as an `Option` (Python: `key in d` / `d[key]`). -/
def assocLookup {α : Type} : List (String × α) → String → Option α
  | [], _ => none
  | (k, v) :: rest, key => if k = key then some v else assocLookup rest key

/-- `d.get(key, default)`. -/
def assocLookupD {α : Type} (l : List (String × α)) (key : String) (dflt : α) : α :=
  (assocLookup l key).getD dflt

/-- `key in d`. -/
def assocContains {α : Type} (l : List (String × α)) (key : String) : Bool :=
  (assocLookup l key).isSome

/-- `d[key] = v` with Python dict semantics: overwrite in place if the key is
present, otherwise append the new key at the end (insertion order). -/
def dictAssign {α : Type} : List (String × α) → String → α → List (String × α)
  | [], k, v => [(k, v)]
  | (k0, v0) :: rest, k, v =>
      if k0 = k then (k0, v) :: rest else (k0, v0) :: dictAssign rest k v

/-! ## MethodCallAnalyzer: snapshot and caller mapping

The analyzer only ever reads the `usage_method_signature_name` list of each
entry of `analysis_data["method_signatures"]`, so a loaded snapshot is
modelled as the association list from a method signature to its usage list. -/

/-- `analysis_data["method_signatures"]`, reduced to the one field the
analyzer reads: `sig -> usage_method_signature_name`. -/
abbrev UsageMap := List (String × List String)

/-- One step of `_build_caller_mapping`'s inner loop:
`if called not in mapping: mapping[called] = []` then
`mapping[called].append(caller)`. -/
def appendCaller : List (String × List String) → String → String → List (String × List String)
  | [], callee, caller => [(callee, [caller])]
  | (k, v) :: rest, callee, caller =>
      if k = callee then (k, v ++ [caller]) :: rest
      else (k, v) :: appendCaller rest callee caller

/-- `MethodCallAnalyzer._build_caller_mapping`: iterate all methods in order
and record, for every member of a method's usage list, that method as a
caller of it. -/
def buildCallerMapping (methodSigs : UsageMap) : List (String × List String) :=
  methodSigs.foldl
    (fun acc entry => entry.2.foldl (fun a called => appendCaller a called entry.1) acc) []

/-! ## The two bounded breadth-first traversals

`get_method_call_chain_by_depth` and `get_method_callers_by_height` are the
same `while queue:` loop, differing only in the neighbour function: the
depth version reads `method_signatures[cur]["usage_method_signature_name"]`
(a `KeyError` if `cur` is not a key), the height version reads
`caller_mapping.get(cur, [])` (never fails).  The loop is embedded once,
with fuel standing for the number of loop iterations; `none` means the
fuel ran out before the queue drained. -/

/-- `{depth: [sig, ...]}` in insertion order. -/
abbrev Buckets := List (Nat × List String)

/-- `if d not in buckets: buckets[d] = []` then `buckets[d].append(s)`. -/
def pushBucket : Buckets → Nat → String → Buckets
  | [], d, s => [(d, [s])]
  | (k, v) :: rest, d, s =>
      if k = d then (k, v ++ [s]) :: rest else (k, v) :: pushBucket rest d s

/-- The `while queue:` loop shared by both traversals (lines 78-101 and
123-146 of `method_call_analyzer.py`): pop left; skip if visited or beyond
the bound; otherwise mark visited, bucket at the current depth, and if the
bound is not yet reached push every not-yet-visited neighbour at depth+1. -/
def bfsAux (next : String → Except String (List String)) (maxDepth : Nat) :
    Nat → List (String × Nat) → List String → Buckets → Option (Except String Buckets)
  | _, [], _, acc => some (Except.ok acc)
  | 0, _ :: _, _, _ => none
  | fuel + 1, (cur, dep) :: rest, visited, acc =>
      if cur ∈ visited ∨ maxDepth < dep then
        bfsAux next maxDepth fuel rest visited acc
      else
        let visited2 := cur :: visited
        let acc2 := pushBucket acc dep cur
        if dep < maxDepth then
          match next cur with
          | Except.error e => some (Except.error e)
          | Except.ok nbrs =>
              bfsAux next maxDepth fuel
                (rest ++ (nbrs.filter (fun m => !visited2.contains m)).map (fun m => (m, dep + 1)))
                visited2 acc2
        else
          bfsAux next maxDepth fuel rest visited2 acc2

/-- Neighbour function of the depth traversal:
`method_signatures[cur]["usage_method_signature_name"]`, raising on a
missing key. -/
def nextByUsage (methodSigs : UsageMap) (sig : String) : Except String (List String) :=
  match assocLookup methodSigs sig with
  | some used => Except.ok used
  | none => Except.error ("KeyError: " ++ sig)

/-- Neighbour function of the height traversal: `caller_mapping.get(cur, [])`. -/
def nextByCaller (callerMapping : List (String × List String)) (sig : String) :
    Except String (List String) :=
  Except.ok (assocLookupD callerMapping sig [])

/-- Everything a traversal can ever push: the concatenation of all neighbour
lists stored in the map. -/
def usagePool (m : List (String × List String)) : List String :=
  (m.map Prod.snd).flatten

/-- Fuel sufficient to drain the queue (proved in `bfsAux_isSome_of_fuel`):
one iteration per skip plus, for each first visit, one iteration and at most
`pool.length` pushed successors. -/
def bfsFuel (pool : List String) : Nat :=
  1 + (pool.length + 1) * pool.toFinset.card

/-- `MethodCallAnalyzer.get_method_call_chain_by_depth`: check the starting
signature is known (else `ValueError`), then run the forward BFS over the
usage edges. -/
def get_method_call_chain_by_depth (methodSigs : UsageMap) (sig : String) (maxDepth : Nat) :
    Except String Buckets :=
  if assocContains methodSigs sig then
    (bfsAux (nextByUsage methodSigs) maxDepth (bfsFuel (sig :: usagePool methodSigs))
        [(sig, 0)] [] []).getD (Except.error "fuel exhausted")
  else Except.error ("方法签名不存在: " ++ sig)

/-- `MethodCallAnalyzer.get_method_callers_by_height`: check the starting
signature is known (else `ValueError`), then run the backward BFS over the
caller mapping built by `_build_caller_mapping`. -/
def get_method_callers_by_height (methodSigs : UsageMap) (sig : String) (maxHeight : Nat) :
    Except String Buckets :=
  if assocContains methodSigs sig then
    let cm := buildCallerMapping methodSigs
    (bfsAux (nextByCaller cm) maxHeight (bfsFuel (sig :: usagePool cm))
        [(sig, 0)] [] []).getD (Except.error "fuel exhausted")
  else Except.error ("方法签名不存在: " ++ sig)

/-- Result shape of `get_complete_method_relationship`. -/
structure CompleteRelationship where
  calls_out : Buckets
  calls_in : Buckets
deriving DecidableEq, Repr

/-- `MethodCallAnalyzer.get_complete_method_relationship`: membership check,
then the two flat traversals; the first raised exception propagates. -/
def get_complete_method_relationship (methodSigs : UsageMap) (sig : String)
    (maxCallsOut maxCallsIn : Nat) : Except String CompleteRelationship :=
  if assocContains methodSigs sig then
    match get_method_call_chain_by_depth methodSigs sig maxCallsOut with
    | Except.error e => Except.error e
    | Except.ok outB =>
        match get_method_callers_by_height methodSigs sig maxCallsIn with
        | Except.error e => Except.error e
        | Except.ok inB => Except.ok ⟨outB, inB⟩
  else Except.error ("方法签名不存在: " ++ sig)

/-! ## Nested-graph assembly -/

/-- A node of the nested relationship tree:
`{"calls_out": {...}, "calls_in": {...}}`. -/
inductive NestedEntry : Type where
  | mk (calls_out : List (String × NestedEntry)) (calls_in : List (String × NestedEntry))
deriving Repr

/-- `MethodCallAnalyzer._build_nested_calls_in`: stop at depth 0 or on a
revisit; otherwise add the current signature to (a copy of) the visited set
and recurse into each recorded caller, each child entry carrying an empty
`calls_out` map (the `_build_nested_calls_out` recursion is commented out in
the source). -/
def buildNestedCallsIn (cm : List (String × List String)) :
    Nat → String → List String → List (String × NestedEntry)
  | 0, _, _ => []
  | maxDepth + 1, sig, visited =>
      if sig ∈ visited then []
      else
        let visited2 := sig :: visited
        (assocLookupD cm sig []).foldl
          (fun res caller =>
            dictAssign res caller
              (NestedEntry.mk [] (buildNestedCallsIn cm maxDepth caller visited2)))
          []

/-- `MethodCallAnalyzer._build_nested_calls_out`: stop at depth 0, on a
revisit, or on an unknown signature; otherwise each directly called method
becomes an entry whose `calls_out` is empty and whose `calls_in` is built by
`_build_nested_calls_in` on a copy of the visited set. -/
def buildNestedCallsOut (methodSigs : UsageMap) (cm : List (String × List String)) :
    Nat → String → List String → List (String × NestedEntry)
  | 0, _, _ => []
  | maxDepth + 1, sig, visited =>
      if sig ∈ visited then []
      else if !assocContains methodSigs sig then []
      else
        let visited2 := sig :: visited
        (assocLookupD methodSigs sig []).foldl
          (fun res called =>
            dictAssign res called
              (NestedEntry.mk [] (buildNestedCallsIn cm maxDepth called visited2)))
          []

/-- Result shape of `get_nested_method_relationship`. -/
structure NestedRelationship where
  calls_out : List (String × NestedEntry)
  calls_in : List (String × NestedEntry)
deriving Repr

/-- `MethodCallAnalyzer.get_nested_method_relationship`: membership check,
then the two nested builds, each started with its own empty visited set. -/
def get_nested_method_relationship (methodSigs : UsageMap) (sig : String)
    (maxCallsOut maxCallsIn : Nat) : Except String NestedRelationship :=
  if assocContains methodSigs sig then
    let cm := buildCallerMapping methodSigs
    Except.ok
      ⟨buildNestedCallsOut methodSigs cm maxCallsOut sig [],
       buildNestedCallsIn cm maxCallsIn sig []⟩
  else Except.error ("方法签名不存在: " ++ sig)

mutual

/-- Recursively: this entry's `calls_out` map is empty, and so is the one of
every entry reachable through `calls_in`. -/
def allCallsOutEmpty : NestedEntry → Bool
  | NestedEntry.mk co ci => co.isEmpty && entriesAllCallsOutEmpty ci

/-- `allCallsOutEmpty` over every entry of a nested map. -/
def entriesAllCallsOutEmpty : List (String × NestedEntry) → Bool
  | [] => true
  | (_, e) :: rest => allCallsOutEmpty e && entriesAllCallsOutEmpty rest

end

/-! ## PMDReportFormatter.filter_by_level -/

/-- One violation record; `priority` is the field the filter reads. -/
structure PMDViolation where
  rule : String
  priority : Int
  beginline : Int
  endline : Int
deriving DecidableEq, Repr

/-- One file entry of the PMD report. -/
structure PMDFileInfo where
  filename : String
  violations : List PMDViolation
  in_change : Bool
deriving DecidableEq, Repr

/-- `PMDReportFormatter.filter_by_level`: per file pick `change_level` when
`in_change` else `project_level`, keep the violations with
`priority <= current_level`, and keep the file only if some violation
survives. -/
def filter_by_level (files : List PMDFileInfo) (project_level change_level : Int) :
    List PMDFileInfo :=
  files.foldr
    (fun fi acc =>
      let current_level := if fi.in_change then change_level else project_level
      let filtered := fi.violations.filter (fun v => v.priority ≤ current_level)
      if filtered.isEmpty then acc else { fi with violations := filtered } :: acc)
    []

/-- Generic dict assignment. -/
def dictAssignN {κ α : Type} [DecidableEq κ] : List (κ × α) → κ → α → List (κ × α)
  | [], k, v => [(k, v)]
  | (k0, v0) :: rest, k, v =>
      if k0 = k then (k0, v) :: rest else (k0, v0) :: dictAssignN rest k v

/-! ## A small backtracking regular-expression engine

Python's `re` uses leftmost-match, backtracking search with greedy
quantifiers trying the longest alternative first and alternation trying the
left branch first.  `reMatch` returns the full list of possible outcomes in
exactly that priority order; its head is the outcome Python picks. -/

/-- Captured groups: group number to matched text. -/
abbrev Caps := List (Nat × List Char)

/-- The regular-expression constructions the analyzer's patterns use. -/
inductive RE : Type where
  | eps
  | cls (p : Char → Bool)
  | seq (a b : RE)
  | alt (a b : RE)
  | star (a : RE)
  | opt (a : RE)
  | group (n : Nat) (a : RE)
  | bol
  | wordBoundary

/-- `\w` for the ASCII inputs the analyzer sees. -/
def isWordChar (c : Char) : Bool := c.isAlphanum || c = '_'

/-- `\s` (also Python's `str.isspace` on ASCII). -/
def isSpaceChar (c : Char) : Bool :=
  c = ' ' || c = '\t' || c = '\n' || c = '\r' || c = Char.ofNat 11 || c = Char.ofNat 12

/-- Whether an optional character is a word character (string edges count
as non-word for `\b`). -/
def isWordOpt : Option Char → Bool
  | none => false
  | some c => isWordChar c

/-- Structural size of a pattern, used for the evaluation fuel. -/
def sizeRE : RE → Nat
  | RE.eps => 1
  | RE.cls _ => 1
  | RE.seq a b => sizeRE a + sizeRE b + 1
  | RE.alt a b => sizeRE a + sizeRE b + 1
  | RE.star a => sizeRE a + 1
  | RE.opt a => sizeRE a + 1
  | RE.group _ a => sizeRE a + 1
  | RE.bol => 1
  | RE.wordBoundary => 1

/-- All ways `r` can match a prefix of `s`, in Python's backtracking
priority order.  Each outcome is the state after the match: the last
consumed character (context for `\b`), the remaining input, and the
captures.  Every recursive call strictly decreases the pair
(remaining length, pattern size) lexicographically, so the fuel
`(s.length + 1) * (sizeRE r + 1) + 1` that `reMatch` supplies is never
exhausted; the strict-progress guard on `star` is Python's rule that an
empty body match ends the repetition. -/
def reMatchF : Nat → RE → Option Char → List Char → Caps →
    List (Option Char × List Char × Caps)
  | 0, _, _, _, _ => []
  | _ + 1, RE.eps, prev, s, caps => [(prev, s, caps)]
  | _ + 1, RE.cls p, _, s, caps =>
      match s with
      | [] => []
      | c :: rest => if p c then [(some c, rest, caps)] else []
  | fuel + 1, RE.seq a b, prev, s, caps =>
      (reMatchF fuel a prev s caps).flatMap (fun r => reMatchF fuel b r.1 r.2.1 r.2.2)
  | fuel + 1, RE.alt a b, prev, s, caps =>
      reMatchF fuel a prev s caps ++ reMatchF fuel b prev s caps
  | fuel + 1, RE.opt a, prev, s, caps =>
      reMatchF fuel a prev s caps ++ [(prev, s, caps)]
  | fuel + 1, RE.star a, prev, s, caps =>
      ((reMatchF fuel a prev s caps).flatMap (fun r =>
        if r.2.1.length < s.length then reMatchF fuel (RE.star a) r.1 r.2.1 r.2.2 else []))
      ++ [(prev, s, caps)]
  | fuel + 1, RE.group n a, prev, s, caps =>
      (reMatchF fuel a prev s caps).map (fun r =>
        (r.1, r.2.1, dictAssignN r.2.2 n (s.take (s.length - r.2.1.length))))
  | _ + 1, RE.bol, prev, s, caps =>
      if prev = none ∨ prev = some '\n' then [(prev, s, caps)] else []
  | _ + 1, RE.wordBoundary, prev, s, caps =>
      if isWordOpt prev ≠ isWordOpt s.head? then [(prev, s, caps)] else []

/-- `reMatchF` with always-sufficient fuel. -/
def reMatch (r : RE) (prev : Option Char) (s : List Char) (caps : Caps) :
    List (Option Char × List Char × Caps) :=
  reMatchF ((s.length + 1) * (sizeRE r + 1) + 1) r prev s caps

/-- The outcome Python keeps: the first of the priority-ordered list. -/
def reFirst (r : RE) (prev : Option Char) (s : List Char) :
    Option (Option Char × List Char × Caps) :=
  (reMatch r prev s []).head?

/-- A match object: start offset, matched text (`group(0)`), captures,
the character context at the match end, and the rest of the input. -/
structure REMatch where
  mstart : Nat
  mtext : List Char
  mcaps : Caps
  mendPrev : Option Char
  msuffix : List Char
deriving Repr

/-- Lookup in captures. -/
def assocLookupN {α : Type} : List (Nat × α) → Nat → Option α
  | [], _ => none
  | (k, v) :: rest, key => if k = key then some v else assocLookupN rest key

/-- `group(n)` of a match. -/
def REMatch.groupN (m : REMatch) (n : Nat) : List Char :=
  (assocLookupN m.mcaps n).getD []

/-- `pattern.search(s)` starting at offset `pos` with left context `prev`:
try a match at each position, leftmost first. -/
def reSearchFrom (r : RE) : Option Char → List Char → Nat → Option REMatch
  | prev, s, pos =>
    match (reMatch r prev s []).head? with
    | some res =>
        some ⟨pos, s.take (s.length - res.2.1.length), res.2.2, res.1, res.2.1⟩
    | none =>
      match s with
      | [] => none
      | c :: tail => reSearchFrom r (some c) tail (pos + 1)

/-- `pattern.search(s)`. -/
def reSearch (r : RE) (s : List Char) : Option REMatch :=
  reSearchFrom r none s 0

/-- `pattern.match(s)`: anchored at the start. -/
def reMatchStart (r : RE) (s : List Char) : Option REMatch :=
  match (reMatch r none s []).head? with
  | some res => some ⟨0, s.take (s.length - res.2.1.length), res.2.2, res.1, res.2.1⟩
  | none => none

/-- `pattern.finditer(s)`: non-overlapping matches, continuing after each
match end (a zero-width match advances by one character).  The fuel
`s.length + 1` bounds the number of matches. -/
def reFindIterAux (r : RE) : Nat → Option Char → List Char → Nat → List REMatch
  | 0, _, _, _ => []
  | fuel + 1, prev, s, pos =>
    match reSearchFrom r prev s pos with
    | none => []
    | some m =>
      if m.mtext.isEmpty then
        match m.msuffix with
        | [] => [m]
        | c :: tail => m :: reFindIterAux r fuel (some c) tail (m.mstart + 1)
      else
        m :: reFindIterAux r fuel m.mendPrev m.msuffix (m.mstart + m.mtext.length)

/-- `pattern.finditer(s)`. -/
def reFindIter (r : RE) (s : List Char) : List REMatch :=
  reFindIterAux r (s.length + 1) none s 0

/-- `pattern.sub(repl, s)` with a literal replacement string. -/
def reSubAux (r : RE) (repl : List Char) : Nat → Option Char → List Char → List Char
  | 0, _, s => s
  | fuel + 1, prev, s =>
    match reSearchFrom r prev s 0 with
    | none => s
    | some m =>
      s.take m.mstart ++ repl ++
        (if m.mtext.isEmpty then
          match m.msuffix with
          | [] => []
          | c :: tail => c :: reSubAux r repl fuel (some c) tail
        else reSubAux r repl fuel m.mendPrev m.msuffix)

/-- `pattern.sub(repl, s)`. -/
def reSub (r : RE) (repl : List Char) (s : List Char) : List Char :=
  reSubAux r repl (s.length + 1) none s

/-! ## Pattern constructors -/

/-- A literal character. -/
def reChar (c : Char) : RE := RE.cls (fun x => x = c)

/-- A literal string. -/
def reStrLit (s : String) : RE := (s.data.map reChar).foldr RE.seq RE.eps

/-- Concatenation of a list of parts. -/
def reSeqs (l : List RE) : RE := l.foldr RE.seq RE.eps

/-- `+`: one, then any number more (greedy). -/
def rePlus (a : RE) : RE := RE.seq a (RE.star a)

/-- `[\w<>\[\]]`. -/
def isTypeChar (c : Char) : Bool := isWordChar c || c = '<' || c = '>' || c = '[' || c = ']'

/-- `\s*`. -/
def reWs : RE := RE.star (RE.cls isSpaceChar)

/-- `\s+`. -/
def reWs1 : RE := rePlus (RE.cls isSpaceChar)

/-- `(?:public|private|protected)?`. -/
def reVisibilityOpt : RE :=
  RE.opt (RE.alt (reStrLit "public") (RE.alt (reStrLit "private") (reStrLit "protected")))

/-- `(?:static\s+)?`. -/
def reStaticOpt : RE := RE.opt (RE.seq (reStrLit "static") reWs1)

/-- `(?:final\s+)?`. -/
def reFinalOpt : RE := RE.opt (RE.seq (reStrLit "final") reWs1)

/-- `@\w+(?:\s*\([^)]*\))?`: `_annotation_pattern`. -/
def annotationPattern : RE :=
  reSeqs [reChar '@', rePlus (RE.cls isWordChar),
    RE.opt (reSeqs [reWs, reChar '(', RE.star (RE.cls (fun c => c ≠ ')')), reChar ')'])]

/-- One iteration of the annotation prefix of `_method_pattern`:
`@\w+(?:\s*\([^)]*\))?\s*\n\s*`. -/
def methodAnnotationPrefix : RE :=
  reSeqs [annotationPattern, reWs, reChar '\n', reWs]

/-- `_method_pattern`. -/
def methodPattern : RE :=
  reSeqs [RE.star methodAnnotationPrefix, reVisibilityOpt, reWs, reStaticOpt, reFinalOpt,
    rePlus (RE.cls isTypeChar), reWs1, rePlus (RE.cls isWordChar), reWs,
    reChar '(', RE.star (RE.cls (fun c => c ≠ ')')), reChar ')', reWs, reChar '{']

/-- The `method_def_pattern` of `_is_method_annotation` (same as
`_method_pattern` without the annotation prefix). -/
def methodDefPattern : RE :=
  reSeqs [reVisibilityOpt, reWs, reStaticOpt, reFinalOpt,
    rePlus (RE.cls isTypeChar), reWs1, rePlus (RE.cls isWordChar), reWs,
    reChar '(', RE.star (RE.cls (fun c => c ≠ ')')), reChar ')', reWs, reChar '{']

/-- `_package_pattern`: `package\s+([\w.]+);`. -/
def packagePattern : RE :=
  reSeqs [reStrLit "package", reWs1,
    RE.group 1 (rePlus (RE.cls (fun c => isWordChar c || c = '.'))), reChar ';']

/-- `_import_pattern`: `import\s+(?:static\s+)?([\w.*]+);`. -/
def importPattern : RE :=
  reSeqs [reStrLit "import", reWs1, RE.opt (RE.seq (reStrLit "static") reWs1),
    RE.group 1 (rePlus (RE.cls (fun c => isWordChar c || c = '.' || c = '*'))), reChar ';']

/-- `(?:\s+extends\s+[^{]+)?` and the `implements` twin. -/
def reExtendsOpt (kw : String) : RE :=
  RE.opt (reSeqs [reWs1, reStrLit kw, reWs1, rePlus (RE.cls (fun c => c ≠ '{'))])

/-- `_class_pattern` (group 1 captures the class name). -/
def classPattern : RE :=
  reSeqs [RE.opt (RE.seq (reStrLit "public") reWs1), RE.opt (RE.seq (reStrLit "abstract") reWs1),
    RE.opt (RE.seq (reStrLit "final") reWs1), RE.alt (reStrLit "class") (reStrLit "interface"),
    reWs1, RE.group 1 (rePlus (RE.cls isWordChar)),
    reExtendsOpt "extends", reExtendsOpt "implements", reWs, reChar '{']

/-- `_class_pattern_simple` (no capture). -/
def classPatternSimple : RE :=
  reSeqs [RE.opt (RE.seq (reStrLit "public") reWs1), RE.opt (RE.seq (reStrLit "abstract") reWs1),
    RE.opt (RE.seq (reStrLit "final") reWs1), RE.alt (reStrLit "class") (reStrLit "interface"),
    reWs1, rePlus (RE.cls isWordChar),
    reExtendsOpt "extends", reExtendsOpt "implements", reWs, reChar '{']

/-- `_field_name_pattern`: `[\w<>\[\]]+\s+(\w+)\s*[=;]`. -/
def fieldNamePattern : RE :=
  reSeqs [rePlus (RE.cls isTypeChar), reWs1, RE.group 1 (rePlus (RE.cls isWordChar)), reWs,
    RE.cls (fun c => c = '=' || c = ';')]

/-- `_class_level_field_pattern` (compiled with `re.MULTILINE`, so its `^`
matches at the string start or after a newline). -/
def classLevelFieldPattern : RE :=
  reSeqs [RE.alt RE.bol (reChar '\n'), reWs, RE.star methodAnnotationPrefix,
    reVisibilityOpt, reWs, reStaticOpt, reFinalOpt,
    rePlus (RE.cls isTypeChar), reWs1, RE.group 1 (rePlus (RE.cls isWordChar)), reWs,
    RE.opt (reSeqs [reChar '=', reWs, RE.star (RE.cls (fun c => c ≠ ';'))]), reWs, reChar ';']

/-- `_method_signature_pattern`. -/
def methodSignaturePattern : RE :=
  RE.group 1 (reSeqs [reVisibilityOpt, reWs, reStaticOpt, reFinalOpt,
    rePlus (RE.cls isTypeChar), reWs1, rePlus (RE.cls isWordChar), reWs,
    reChar '(', RE.star (RE.cls (fun c => c ≠ ')')), reChar ')'])

/-- `_method_return_type_pattern`. -/
def methodReturnTypePattern : RE :=
  reSeqs [reVisibilityOpt, reWs, reStaticOpt, reFinalOpt,
    rePlus (RE.cls isTypeChar), reWs1,
    RE.group 1 (reSeqs [rePlus (RE.cls isWordChar), reWs,
      reChar '(', RE.star (RE.cls (fun c => c ≠ ')')), reChar ')'])]

/-- `_param_pattern`: `\(([^)]*)\)`. -/
def paramPattern : RE :=
  reSeqs [reChar '(', RE.group 1 (RE.star (RE.cls (fun c => c ≠ ')'))), reChar ')']

/-- `_param_type_name_pattern`: `([\w<>\[\]]+(?:\.\.\.)?)\s+\w+`. -/
def paramTypeNamePattern : RE :=
  reSeqs [RE.group 1 (RE.seq (rePlus (RE.cls isTypeChar)) (RE.opt (reStrLit "..."))),
    reWs1, rePlus (RE.cls isWordChar)]

/-- `_method_name_pattern`: `(\w+)\s*\(`. -/
def methodNamePattern : RE :=
  reSeqs [RE.group 1 (rePlus (RE.cls isWordChar)), reWs, reChar '(']

/-- `_annotation_valid_pattern`: `@\w+`. -/
def annotationValidPattern : RE := RE.seq (reChar '@') (rePlus (RE.cls isWordChar))

/-- `_empty_lines_pattern`: `\n\s*\n\s*\n+`. -/
def emptyLinesPattern : RE :=
  reSeqs [reChar '\n', reWs, reChar '\n', reWs, rePlus (reChar '\n')]

/-- The `type_pattern` of `_extract_field_type`:
`(?:private|public|protected)?\s*(?:static\s+)?(?:final\s+)?([\w<>\[\]]+)\s+(\w+)\s*[=;]`. -/
def fieldTypePattern : RE :=
  reSeqs [RE.opt (RE.alt (reStrLit "private") (RE.alt (reStrLit "public") (reStrLit "protected"))),
    reWs, reStaticOpt, reFinalOpt,
    RE.group 1 (rePlus (RE.cls isTypeChar)), reWs1, RE.group 2 (rePlus (RE.cls isWordChar)), reWs,
    RE.cls (fun c => c = '=' || c = ';')]

/-- The field-usage pattern of `_analyze_method_field_usage`:
`\b(?:this\.)?NAME\b` for a literal field name. -/
def fieldUsagePattern (name : List Char) : RE :=
  reSeqs [RE.wordBoundary, RE.opt (RE.seq (reStrLit "this") (reChar '.')),
    (name.map reChar).foldr RE.seq RE.eps, RE.wordBoundary]


/-! ## Python string primitives on `List Char` -/

/-- `str.strip()`. -/
def stripList (s : List Char) : List Char :=
  ((s.dropWhile isSpaceChar).reverse.dropWhile isSpaceChar).reverse

/-- `str.split(sep)` for a one-character separator (always at least one piece). -/
def splitOnChar (s : List Char) (sep : Char) : List (List Char) :=
  match s with
  | [] => [[]]
  | c :: rest =>
      let r := splitOnChar rest sep
      if c = sep then [] :: r
      else match r with
        | [] => [[c]]
        | piece :: more => (c :: piece) :: more

/-- `sep.join(pieces)`. -/
def joinSep (pieces : List (List Char)) (sep : List Char) : List Char :=
  match pieces with
  | [] => []
  | [p] => p
  | p :: rest => p ++ sep ++ joinSep rest sep

/-- `s[a:b]` for non-negative bounds. -/
def sliceList (s : List Char) (a b : Nat) : List Char := (s.drop a).take (b - a)

/-! ## JavaProjectAnalyzer: signature stripping -/

/-- `JavaProjectAnalyzer._remove_parameter_names`. -/
def remove_parameter_names (signature : List Char) : List Char :=
  match reSearch paramPattern signature with
  | none => signature
  | some m =>
    let params_str := m.groupN 1
    if (stripList params_str).isEmpty then signature
    else
      let params := (splitOnChar params_str ',').map stripList
      let new_params := params.filterMap (fun param =>
        if (stripList param).isEmpty then none
        else
          match reMatchStart paramTypeNamePattern param with
          | some pm => some (pm.groupN 1)
          | none => some param)
      let new_params_str := joinSep new_params (", ".data)
      reSub paramPattern ('(' :: (new_params_str ++ [')'])) signature

/-- `JavaProjectAnalyzer._extract_method_signature`. -/
def extract_method_signature (method_code : List Char) : List Char :=
  match reSearch methodSignaturePattern method_code with
  | none => []
  | some m =>
    let signature := stripList (m.groupN 1)
    let signature2 := remove_parameter_names signature
    match reSearch methodReturnTypePattern signature2 with
    | some rm => stripList (rm.groupN 1)
    | none => signature2



/-! ## Character-indexed scans of JavaProjectAnalyzer -/

/-- Python `content[i]` for a possibly negative index (negative or
out-of-range indices never occur on the paths the analyzer takes). -/
def charAt (content : List Char) (i : Int) : Option Char :=
  if 0 ≤ i then content.get? i.toNat else none

/-- Python `content[a:b]` for `Int` bounds clamped at 0. -/
def sliceInt (content : List Char) (a b : Int) : List Char :=
  (content.drop a.toNat).take (b.toNat - a.toNat)

/-- The forward brace scan shared by `_extract_class_content_with_comments`,
`_find_method_end` and `_extract_method_content_optimized`: starting at
`pos`, `{` increments and `}` decrements the count, and the first `}` that
brings the count of an opened block back to zero ends the block; `none`
when no such zero-crossing exists. -/
def braceScan (chars : List Char) (count : Int) (started : Bool) (pos : Nat) : Option Nat :=
  match chars with
  | [] => none
  | c :: rest =>
      if c = '{' then braceScan rest (count + 1) true (pos + 1)
      else if c = '}' then
        if started && count - 1 = 0 then some (pos + 1)
        else braceScan rest (count - 1) started (pos + 1)
      else braceScan rest count started (pos + 1)

/-- Fuel-driven core of `skipWsBack` (the fuel `(pos+1).toNat` bounds the
number of backward steps, so the loop semantics are exact). -/
def skipWsBackF (content : List Char) : Nat → Int → Int
  | 0, p => p
  | n + 1, p =>
    if p < 0 then p
    else
      match charAt content p with
      | some c => if isSpaceChar c then skipWsBackF content n (p - 1) else p
      | none => p

/-- The `while pos >= 0 and content[pos].isspace(): pos -= 1` loop of
`_find_class_comment_start`. -/
def skipWsBack (content : List Char) (pos : Int) : Int :=
  skipWsBackF content (pos + 1).toNat pos

/-- Fuel-driven core of `findNewlineBack`. -/
def findNewlineBackF (content : List Char) : Nat → Int → Int
  | 0, p => p
  | n + 1, p =>
    if p < 0 then p
    else if charAt content p = some '\n' then p
    else findNewlineBackF content n (p - 1)

/-- The backward newline scan (loop of `_find_class_comment_start` looking
for the start of the current line): the nearest index `<= pos` holding a
newline, or `-1`; a negative `pos` is returned unchanged, as the Python
loop leaves it. -/
def findNewlineBack (content : List Char) (pos : Int) : Int :=
  findNewlineBackF content (pos + 1).toNat pos

/-- Fuel-driven core of `commentLinesBack`; `lcp` strictly decreases per
iteration, so fuel `(lcp+1).toNat` makes the loop semantics exact. -/
def commentLinesBackF (content : List Char) : Nat → Int → Int → Int
  | 0, _, pos => pos
  | n + 1, lcp, pos =>
    if lcp < 0 then pos
    else
      let prev_line_end := lcp
      let lcp2 := findNewlineBack content (lcp - 1)
      if 0 ≤ lcp2 then
        if List.isPrefixOf "//".data (stripList (sliceInt content (lcp2 + 1) prev_line_end)) then
          commentLinesBackF content n lcp2 (lcp2 + 1)
        else pos
      else pos

/-- The `while` loop climbing consecutive `//` lines in
`_find_class_comment_start` (its `pos` is the running result, updated to
the start of each earlier comment line). -/
def commentLinesBack (content : List Char) (lcp pos : Int) : Int :=
  commentLinesBackF content (lcp + 1).toNat lcp pos

/-- Fuel-driven core of `findBlockCommentInner`. -/
def findBlockCommentInnerF (content : List Char) : Nat → Int → Int
  | 0, _ => -1
  | n + 1, p =>
    if p < 1 then -1
    else if charAt content p = some '*' && charAt content (p - 1) = some '/' then
      if 2 ≤ p && charAt content (p - 2) = some '*' then p - 2 else p - 1
    else findBlockCommentInnerF content n (p - 1)

/-- The inner loop of `_find_block_comment_start`: scan backward for the
opening `/*`, reporting the position of the `/` (one further left for a
Javadoc `/**`), `-1` when it is never found. -/
def findBlockCommentInner (content : List Char) (pos : Int) : Int :=
  findBlockCommentInnerF content (pos + 1).toNat pos

/-- Fuel-driven core of `find_block_comment_start`. -/
def findBlockCommentStartF (content : List Char) : Nat → Int → Int
  | 0, _ => -1
  | n + 1, p =>
    if p < 1 then -1
    else if charAt content p = some '/' && charAt content (p - 1) = some '*' then
      findBlockCommentInner content (p - 2)
    else findBlockCommentStartF content n (p - 1)

/-- `JavaProjectAnalyzer._find_block_comment_start`: scan backward for a
closing `*/`, then for its opening `/*`. -/
def find_block_comment_start (content : List Char) (pos : Int) : Int :=
  findBlockCommentStartF content (pos + 1).toNat pos

/-- `JavaProjectAnalyzer._find_class_comment_start`. -/
def find_class_comment_start (content : List Char) (class_start : Int) : Int :=
  let pos0 := skipWsBack content (class_start - 1)
  let lcp := findNewlineBack content pos0
  let pos1 :=
    if 0 ≤ lcp then
      if List.isPrefixOf "//".data (stripList (sliceInt content (lcp + 1) (pos0 + 1))) then
        commentLinesBack content lcp pos0
      else pos0
    else pos0
  let bcs := find_block_comment_start content pos1
  if 0 ≤ bcs then bcs else pos1

/-- `JavaProjectAnalyzer._extract_class_content_with_comments`. -/
def extract_class_content_with_comments (content : List Char) (class_start : Nat) : List Char :=
  let class_end := (braceScan (content.drop class_start) 0 false class_start).getD class_start
  let comment_start := find_class_comment_start content class_start
  let comment_start2 := if comment_start < 0 then 0 else comment_start
  sliceInt content comment_start2 class_end

/-! ## Python string operations used by the analyzer -/

/-- Python `str.lower()` for the ASCII names involved. -/
def lowerStr (s : String) : String := String.mk (s.data.map Char.toLower)

/-- Occurrence of `needle` anywhere in `l` (Python `in` on strings). -/
def isInfixList (needle : List Char) : List Char → Bool
  | [] => List.isPrefixOf needle []
  | c :: rest => List.isPrefixOf needle (c :: rest) || isInfixList needle rest

/-- Python `needle in haystack` on strings. -/
def containsSub (haystack needle : String) : Bool :=
  isInfixList needle.data haystack.data

/-- Python `s.split(sep)` for a one-character separator, on `String`. -/
def splitStr (s : String) (sep : Char) : List String :=
  (splitOnChar s.data sep).map String.mk

/-- Python `s.endswith(t)`. -/
def endsWithStr (s t : String) : Bool := List.isSuffixOf t.data s.data

/-- Python `s.find(c)` for a one-character needle. -/
def findCharIdx (s : List Char) (c : Char) : Int :=
  match s.indexOf? c with
  | some i => (i : Int)
  | none => -1

/-- Python `s.rfind(c)` for a one-character needle. -/
def rfindCharIdx (s : List Char) (c : Char) : Int :=
  match s.reverse.indexOf? c with
  | some i => ((s.length - 1 - i : Nat) : Int)
  | none => -1

/-! ## JavaProjectAnalyzer: imports, field typing, formatting -/

/-- `JavaProjectAnalyzer.format_java_code`: collapse three or more
consecutive newlines to two and strip the ends. -/
def format_java_code (code : List Char) : List Char :=
  if code.isEmpty || (stripList code).isEmpty then code
  else stripList (reSub emptyLinesPattern "\n\n".data code)

/-- `JavaProjectAnalyzer._parse_imports`: simple class name to
fully-qualified import, wildcard imports skipped. -/
def parse_imports (content : List Char) : List (String × String) :=
  (reFindIter importPattern content).foldl
    (fun acc m =>
      let import_statement := m.groupN 1
      if endsWithStr (String.mk import_statement) ".*" then acc
      else if (import_statement.contains '.') then
        dictAssign acc (String.mk ((splitOnChar import_statement '.').getLast?.getD []))
          (String.mk import_statement)
      else acc)
    []

/-- `JavaProjectAnalyzer._generate_impl_signatures`. -/
def generate_impl_signatures (class_signature_name : String) : List String :=
  if endsWithStr class_signature_name "Impl" then [class_signature_name]
  else [class_signature_name, class_signature_name ++ "Impl"]

/-- `JavaProjectAnalyzer._extract_field_type`. -/
def extract_field_type (field_source_code : List Char) : List Char :=
  match reSearch fieldTypePattern field_source_code with
  | none => []
  | some m =>
    let field_type := stripList (m.groupN 1)
    let field_name := stripList (m.groupN 2)
    if !field_type.isEmpty && !field_name.isEmpty && field_type ≠ field_name then field_type
    else []

/-- The `basic_types` list of `_resolve_field_type_package`. -/
def basicTypes : List String :=
  ["String", "Integer", "Long", "Double", "Float", "Boolean", "Date", "List", "Map", "Set",
   "ArrayList", "HashMap", "HashSet"]

/-- `JavaProjectAnalyzer._resolve_field_type_package`. -/
def resolve_field_type_package (field_type : List Char) (import_mappings : List (String × String))
    (current_class_signature_name : String) : String :=
  if field_type.isEmpty then current_class_signature_name
  else
    let base_type :=
      if field_type.contains '<' then
        let generic_start := findCharIdx field_type '<'
        let generic_end := rfindCharIdx field_type '>'
        if generic_start ≠ -1 ∧ generic_end ≠ -1 then
          let generic_content := sliceInt field_type (generic_start + 1) generic_end
          if generic_content.contains ',' then
            stripList ((splitOnChar generic_content ',').headI)
          else stripList generic_content
        else field_type
      else field_type
    let base_type := if endsWithStr (String.mk base_type) "[]" then base_type.dropLast.dropLast else base_type
    if (String.mk base_type) ∈ basicTypes then current_class_signature_name
    else
      match assocLookup import_mappings (String.mk base_type) with
      | some full => full
      | none =>
        let current_package :=
          String.intercalate "." ((splitStr current_class_signature_name '.').dropLast)
        current_package ++ "." ++ String.mk base_type

/-! ## JavaProjectAnalyzer: method and field extraction -/

/-- `JavaProjectAnalyzer._is_method_annotation`: the annotation belongs to a
method when no `;` stands between it and the method start and the text in
between matches a method-definition pattern. -/
def is_method_annotation (content : List Char) (annotation_start method_start : Nat) : Bool :=
  let between_content := stripList (sliceList content annotation_start method_start)
  if between_content.contains ';' then false
  else (reSearch methodDefPattern between_content).isSome

/-- `JavaProjectAnalyzer._find_annotation_start_optimized`: look back at
most 200 characters, take the annotations found there from the last one
backward, and return the first whose span up to the method start looks like
a method definition. -/
def find_annotation_start_optimized (content : List Char) (method_start : Nat) : Nat :=
  let search_start := method_start - 200
  let search_content := sliceList content search_start method_start
  let annotations := reFindIter annotationPattern search_content
  if annotations.isEmpty then method_start
  else
    match annotations.reverse.find?
        (fun a => is_method_annotation content (search_start + a.mstart) method_start) with
    | some a => search_start + a.mstart
    | none => method_start

/-- `JavaProjectAnalyzer._extract_method_content_optimized`: the method body
by forward brace counting plus the annotation span found backward. -/
def extract_method_content_optimized (content : List Char) (method_start : Nat) : List Char :=
  let method_end := (braceScan (content.drop method_start) 0 false method_start).getD method_start
  let annotation_start := find_annotation_start_optimized content method_start
  sliceList content annotation_start method_end

/-- `JavaProjectAnalyzer._extract_methods`. -/
def extract_methods (class_content : List Char) : List (List Char) :=
  (reFindIter methodPattern class_content).foldr
    (fun m acc =>
      let method_content := extract_method_content_optimized class_content m.mstart
      if method_content.isEmpty then acc else method_content :: acc)
    []

/-- `JavaProjectAnalyzer._find_method_end`: forward brace scan, returning
`method_start` when the block never closes. -/
def find_method_end (content : List Char) (method_start : Nat) : Nat :=
  (braceScan (content.drop method_start) 0 false method_start).getD method_start

/-- `JavaProjectAnalyzer._get_method_regions`. -/
def get_method_regions (class_content : List Char) : List (Nat × Nat) :=
  (reFindIter methodPattern class_content).foldr
    (fun m acc =>
      let method_end := find_method_end class_content m.mstart
      if m.mstart < method_end then (m.mstart, method_end) :: acc else acc)
    []

/-- `JavaProjectAnalyzer._is_in_method_region`. -/
def is_in_method_region (position : Nat) (method_regions : List (Nat × Nat)) : Bool :=
  method_regions.any (fun r => r.1 ≤ position && position ≤ r.2)

/-- `JavaProjectAnalyzer._extract_fields`: class-level field declarations
are field-pattern matches lying outside every method region. -/
def extract_fields (class_content : List Char) : List (List Char) :=
  let method_regions := get_method_regions class_content
  (reFindIter classLevelFieldPattern class_content).foldr
    (fun m acc =>
      if !is_in_method_region m.mstart method_regions then m.mtext :: acc else acc)
    []

/-- `JavaProjectAnalyzer._analyze_method_field_usage`: a field is used when
`\b(?:this\.)?fieldSimpleName\b` occurs in the method source. -/
def analyze_method_field_usage (method_code : List Char) (field_names : List String) :
    List String :=
  field_names.foldr
    (fun field_name acc =>
      let simple_field_name := ((splitStr field_name '.').getLast?.getD "").data
      if (reSearch (fieldUsagePattern simple_field_name) method_code).isSome
      then field_name :: acc else acc)
    []

/-! ## JavaProjectAnalyzer: state and per-class analysis -/

/-- The `ClassSignature` dataclass. -/
structure ClassSignature where
  class_signature_name : String
  class_source_code : List Char
  field_signature_name : List String
  method_signature_name : List String
  simple_method_signature_name_map : List (String × String)
  class_path : String
deriving DecidableEq, Repr

/-- The `MethodSignature` dataclass. -/
structure MethodSignature where
  class_signature_name : String
  method_source_code : List Char
  usaged_fields : List String
  usage_method_signature_name : List String
deriving DecidableEq, Repr

/-- The `FieldSignature` dataclass. -/
structure FieldSignature where
  field_class_signature_name : String
  field_name : String
  field_signature_name : String
  field_source_code : List Char
deriving DecidableEq, Repr

/-- The three signature maps, the only instance attributes the per-class
analysis reads or writes. -/
structure SignatureMaps where
  class_signatures : List (String × ClassSignature)
  method_signatures : List (String × MethodSignature)
  field_signatures : List (String × FieldSignature)
deriving Repr

/-- The mutable attributes of a `JavaProjectAnalyzer` instance that
`analyze_project` reads or writes. -/
structure AnalyzerState where
  class_signatures : List (String × ClassSignature)
  method_signatures : List (String × MethodSignature)
  field_signatures : List (String × FieldSignature)
  method_name_index : List (String × List String)
  method_name_lookup : List (String × List String)
  class_method_index : List (String × List String)
  method_signatures_map : List (String × List String)
deriving Repr

/-- The three filter-keyword lists read from the environment in
`__init__`; `analyze_project` only reads them. -/
structure AnalyzerConfig where
  package_filter_keywords : List String
  class_filter_keywords : List String
  method_filter_keywords : List String
deriving Repr

/-- The per-file facts `_analyze_java_file` hands to each class analysis. -/
structure FileInfo where
  class_path : String
  package_name : String
  import_mappings : List (String × String)
deriving Repr

/-- `JavaProjectAnalyzer._analyze_class_fields`: register every extracted
field under its resolved declaring class and that class's `Impl` alias,
returning the field-signature names in registration order. -/
def analyze_class_fields (st : SignatureMaps) (class_content : List Char)
    (class_signature_name : String) (import_mappings : List (String × String)) :
    SignatureMaps × List String :=
  (extract_fields class_content).foldl
    (fun (acc : SignatureMaps × List String) field =>
      let field_name :=
        match reSearch fieldNamePattern field with
        | some m => String.mk (m.groupN 1)
        | none => ""
      let field_type := extract_field_type field
      let field_class_signature_name :=
        resolve_field_type_package field_type import_mappings class_signature_name
      let field_class_signatures := generate_impl_signatures field_class_signature_name
      field_class_signatures.foldl
        (fun (acc2 : SignatureMaps × List String) field_class_sig =>
          let field_signature_name := field_class_sig ++ "." ++ field_name
          ({ acc2.1 with
              field_signatures := dictAssign acc2.1.field_signatures field_signature_name
                { field_class_signature_name := field_class_sig
                  field_name := field_name
                  field_signature_name := field_signature_name
                  field_source_code := format_java_code (stripList field) } },
           acc2.2 ++ [field_signature_name]))
        acc)
    (st, [])

/-- The method-keyword filter check of `_analyze_class_methods`:
`filter_keyword in method_signature_name.lower()`. -/
def method_sig_filtered (cfg : AnalyzerConfig) (method_signature_name : String) : Bool :=
  cfg.method_filter_keywords.any (fun kw => containsSub (lowerStr method_signature_name) kw)

/-- The registration of one extracted method under one class-signature
alias (the inner loop body of `_analyze_class_methods`). -/
def register_method_signature (cfg : AnalyzerConfig) (field_names : List String)
    (method : List Char) (acc2 : SignatureMaps × List String) (class_sig : String) :
    SignatureMaps × List String :=
  let method_signature := String.mk (extract_method_signature method)
  let method_signature_name := class_sig ++ "." ++ method_signature
  if method_sig_filtered cfg method_signature_name then acc2
  else
    let used_fields := analyze_method_field_usage method field_names
    ({ acc2.1 with
        method_signatures := dictAssign acc2.1.method_signatures method_signature_name
          { class_signature_name := class_sig
            method_source_code := format_java_code (stripList method)
            usaged_fields := used_fields
            usage_method_signature_name := [] } },
     acc2.2 ++ [method_signature_name])

/-- The processing of one extracted method (the outer loop body of
`_analyze_class_methods`): register it under the class and its `Impl`
alias. -/
def analyze_one_method (cfg : AnalyzerConfig) (class_signature_name : String)
    (field_names : List String) (acc : SignatureMaps × List String) (method : List Char) :
    SignatureMaps × List String :=
  (generate_impl_signatures class_signature_name).foldl
    (register_method_signature cfg field_names method) acc

/-- `JavaProjectAnalyzer._analyze_class_methods`: register every extracted
method under the class and its `Impl` alias, skipping keyword-filtered
signatures, returning the method-signature names in registration order. -/
def analyze_class_methods (cfg : AnalyzerConfig) (st : SignatureMaps) (class_content : List Char)
    (class_signature_name : String) (field_names : List String) :
    SignatureMaps × List String :=
  (extract_methods class_content).foldl
    (analyze_one_method cfg class_signature_name field_names) (st, [])

/-- `JavaProjectAnalyzer._extract_simple_method_signature_names`. -/
def extract_simple_method_signature_names (method_names : List String) :
    List (String × String) :=
  method_names.foldl
    (fun acc method_name =>
      let chars := method_name.data
      let last_dot_index := rfindCharIdx chars '.'
      if last_dot_index ≠ -1 then
        let method_with_params := chars.drop (last_dot_index + 1).toNat
        let paren_index := findCharIdx method_with_params '('
        let simple_method_name :=
          if paren_index ≠ -1 then method_with_params.take paren_index.toNat
          else method_with_params
        dictAssign acc method_name (String.mk simple_method_name)
      else
        let paren_index := findCharIdx chars '('
        let simple_method_name :=
          if paren_index ≠ -1 then chars.take paren_index.toNat else chars
        dictAssign acc method_name (String.mk simple_method_name))
    []

/-- `JavaProjectAnalyzer._extract_simple_class_source_code`: keep the
leading comments and the declaration line, closing with a brace. -/
def extract_simple_class_source_code (class_content : List Char) : List Char :=
  if class_content.isEmpty then class_content
  else
    match reSearch classPatternSimple class_content with
    | none => class_content
    | some m =>
      (class_content.take m.mstart) ++ m.mtext ++ "\n\x7d".data

/-- `JavaProjectAnalyzer._create_class_signature`. -/
def create_class_signature (st : SignatureMaps) (class_content : List Char)
    (class_signature_name : String) (field_names method_names : List String)
    (class_path : String) : SignatureMaps :=
  { st with
      class_signatures := dictAssign st.class_signatures class_signature_name
        { class_signature_name := class_signature_name
          class_source_code := extract_simple_class_source_code class_content
          field_signature_name := field_names
          method_signature_name := method_names
          simple_method_signature_name_map := extract_simple_method_signature_names method_names
          class_path := class_path } }

/-- `JavaProjectAnalyzer._analyze_single_class`: keyword filters, then
fields, methods and the class signature. -/
def analyze_single_class (cfg : AnalyzerConfig) (st : SignatureMaps) (content : List Char)
    (class_match_start : Nat) (class_name : String) (info : FileInfo) : SignatureMaps :=
  let class_signature_name :=
    if info.package_name ≠ "" then info.package_name ++ "." ++ class_name else class_name
  if info.package_name ≠ "" ∧
      cfg.package_filter_keywords.any (fun kw => containsSub (lowerStr info.package_name) kw) then
    st
  else if cfg.class_filter_keywords.any
      (fun kw => containsSub (lowerStr class_signature_name) kw) then
    st
  else
    let class_content_with_comments := extract_class_content_with_comments content class_match_start
    let fieldsResult := analyze_class_fields st class_content_with_comments
      class_signature_name info.import_mappings
    let methodsResult := analyze_class_methods cfg fieldsResult.1 class_content_with_comments
      class_signature_name fieldsResult.2
    create_class_signature methodsResult.1 class_content_with_comments class_signature_name
      fieldsResult.2 methodsResult.2 info.class_path

/-- `JavaProjectAnalyzer._analyze_java_file` (the file content is passed in;
reading it from disk, and the error handling around that, are outside the
embedding).  `class_path` is the project-relative path with forward
slashes. -/
def analyze_java_file (cfg : AnalyzerConfig) (st : SignatureMaps) (class_path : String)
    (content : List Char) : SignatureMaps :=
  let package_name :=
    match reSearch packagePattern content with
    | some m => String.mk (m.groupN 1)
    | none => ""
  let info : FileInfo :=
    { class_path := class_path
      package_name := package_name
      import_mappings := parse_imports content }
  (reFindIter classPattern content).foldl
    (fun acc m => analyze_single_class cfg acc content m.mstart (String.mk (m.groupN 1)) info)
    st

/-! ## JavaProjectAnalyzer: indices, call-edge pass and analyze_project -/

/-- Creation of an empty dict entry (`if key not in d: d[key] = []`). -/
def ensureKey (l : List (String × List String)) (k : String) : List (String × List String) :=
  if assocContains l k then l else l ++ [(k, [])]

/-- `JavaProjectAnalyzer._build_method_name_index`: the pair
(`method_name_index`, `method_name_lookup`), both rebuilt from scratch
(`appendCaller` is the same create-or-append dict operation the caller
mapping uses). -/
def build_method_name_index (method_signatures : List (String × MethodSignature)) :
    List (String × List String) × List (String × List String) :=
  method_signatures.foldl
    (fun acc p =>
      let sig := p.1
      let class_signature_name := String.intercalate "." ((splitStr sig '.').dropLast)
      let index2 := appendCaller acc.1 class_signature_name sig
      let method_part := (splitStr sig '.').getLast?.getD ""
      let method_name :=
        match reSearch methodNamePattern method_part.data with
        | some m => String.mk (m.groupN 1)
        | none => (splitStr method_part '(').headI
      (index2, appendCaller acc.2 method_name sig))
    ([], [])

/-- `JavaProjectAnalyzer._build_class_method_index`, rebuilt from scratch. -/
def build_class_method_index (class_signatures : List (String × ClassSignature)) :
    List (String × List String) :=
  class_signatures.foldl
    (fun acc p =>
      p.2.method_signature_name.foldl (fun a msn => appendCaller a p.1 msn) (ensureKey acc p.1))
    []

/-- `JavaProjectAnalyzer._build_simple_method_sig_map`: signature key with
the parenthesised part removed, to the full keys. -/
def build_simple_method_sig_map (method_signatures : List (String × MethodSignature)) :
    List (String × List String) :=
  method_signatures.foldl
    (fun acc p => appendCaller acc ((splitStr p.1 '(').headI) p.1)
    []

/-- `JavaProjectAnalyzer._analyze_method_method_usage`: for every used
field, resolve its declaring class's simple-method map and record every
method whose `fieldName.methodName` call text occurs in the body. -/
def analyze_method_method_usage (maps : SignatureMaps) (method_code : List Char)
    (usaged_fields : List String) : List String :=
  usaged_fields.foldl
    (fun acc field_signature_name =>
      match assocLookup maps.field_signatures field_signature_name with
      | none => acc
      | some field_sig =>
        match assocLookup maps.class_signatures field_sig.field_class_signature_name with
        | none => acc
        | some class_sig =>
          class_sig.simple_method_signature_name_map.foldl
            (fun acc2 p =>
              let field_method_call := field_sig.field_name ++ "." ++ p.2
              if isInfixList field_method_call.data method_code then acc2 ++ [p.1] else acc2)
            acc)
    []

/-- `JavaProjectAnalyzer.analyze_project`.  The `os.walk` file enumeration
and per-file reads are I/O, so the project tree arrives as the list of
(project-relative path, content) pairs in walk order; a byte-identical tree
yields the same list.  The method starts by clearing the three signature
maps (lines 156-158), then analyzes every file, rebuilds the three indices
from scratch, and finally fills in `usage_method_signature_name` for every
method in a second pass. -/
def analyze_project (cfg : AnalyzerConfig) (st : AnalyzerState)
    (files : List (String × List Char)) : AnalyzerState :=
  let maps0 : SignatureMaps :=
    { class_signatures := [], method_signatures := [], field_signatures := [] }
  let maps1 := files.foldl (fun m f => analyze_java_file cfg m f.1 f.2) maps0
  let idx := build_method_name_index maps1.method_signatures
  let cmi := build_class_method_index maps1.class_signatures
  let smap := build_simple_method_sig_map maps1.method_signatures
  let method2 := maps1.method_signatures.map (fun p =>
    (p.1, { p.2 with usage_method_signature_name :=
        analyze_method_method_usage maps1 p.2.method_source_code p.2.usaged_fields }))
  { class_signatures := maps1.class_signatures
    method_signatures := method2
    field_signatures := maps1.field_signatures
    method_name_index := idx.1
    method_name_lookup := idx.2
    class_method_index := cmi
    method_signatures_map := smap }

def emptyConfig : AnalyzerConfig := ⟨[], [], []⟩
def emptyState : AnalyzerState := ⟨[], [], [], [], [], [], []⟩
def sampleFileA : String :=
  "package p;\n\nimport q.UserDao;\n\npublic class A \x7b\n  private UserDao userDao;\n  void f() \x7b userDao.save(x); \x7d\n\x7d"

/-! ## ChangedSignatureExtractor -/

/-- Element-wise common prefix length of two component lists
(`os.path.commonprefix` on lists). -/
def commonPrefixLen : List String → List String → Nat
  | a :: as, b :: bs => if a = b then commonPrefixLen as bs + 1 else 0
  | _, _ => 0

/-- `posixpath.normpath`. -/
def posixNormpath (path : String) : String :=
  if path = "" then "."
  else
    let initial_slashes : Nat :=
      if List.isPrefixOf "//".data path.data ∧ ¬ List.isPrefixOf "///".data path.data then 2
      else if List.isPrefixOf "/".data path.data then 1 else 0
    let comps := splitStr path '/'
    let new_comps := comps.foldl
      (fun acc comp =>
        if comp = "" ∨ comp = "." then acc
        else if comp ≠ ".." ∨ (initial_slashes = 0 ∧ acc = []) ∨ acc.getLast?.getD "" = ".." then
          acc ++ [comp]
        else if acc ≠ [] then acc.dropLast
        else acc)
      []
    let joined := String.mk (List.replicate initial_slashes '/') ++ String.intercalate "/" new_comps
    if joined = "" then "." else joined

/-- `posixpath.basename`. -/
def posixBasename (p : String) : String := (splitStr p '/').getLast?.getD ""

/-- `posixpath.relpath` for the already-absolute paths the extractor passes
(on absolute inputs `abspath` reduces to `normpath`). -/
def posixRelpath (path start : String) : String :=
  let start_list := (splitStr (posixNormpath start) '/').filter (fun c => c ≠ "")
  let path_list := (splitStr (posixNormpath path) '/').filter (fun c => c ≠ "")
  let i := commonPrefixLen start_list path_list
  let rel_list := List.replicate (start_list.length - i) ".." ++ path_list.drop i
  if rel_list = [] then "." else String.intercalate "/" rel_list

/-- The two fields of a `class_signatures` entry that
`ChangedSignatureExtractor` reads from the loaded analysis snapshot. -/
structure IndexClassEntry where
  class_path : String
  method_signature_name : List String
deriving DecidableEq, Repr

/-- `ChangedSignatureExtractor._find_class_signature_by_file_path`: compare
by normalized path, falling back to a filename-only comparison, first
matching entry wins; empty string when nothing matches. -/
def find_class_signature_by_file_path (workspace_path file_path : String)
    (class_signatures : List (String × IndexClassEntry)) : String :=
  let relative_path0 :=
    if List.isPrefixOf "/".data file_path.data then posixRelpath file_path workspace_path
    else file_path
  let relative_path := posixNormpath relative_path0
  go relative_path class_signatures
where
  /-- The `for class_signature_name, class_data in class_signatures.items()` loop. -/
  go (relative_path : String) : List (String × IndexClassEntry) → String
    | [] => ""
    | (name, data) :: rest =>
      if data.class_path ≠ "" then
        let normalized_class_path := posixNormpath data.class_path
        if normalized_class_path = relative_path then name
        else if posixBasename normalized_class_path = posixBasename relative_path then name
        else go relative_path rest
      else go relative_path rest

/-- `ChangedSignatureExtractor._extract_method_signatures_from_code_snippet`:
re-run the method extraction over the fragment and prefix each recovered
structural signature with the located class name. -/
def extract_method_signatures_from_code_snippet (code : List Char)
    (class_signature_name : String) : List String :=
  if code.isEmpty || class_signature_name = "" then []
  else
    (reFindIter methodPattern code).foldr
      (fun m acc =>
        let method_code := extract_method_content_optimized code m.mstart
        let sig := String.mk (extract_method_signature method_code)
        if sig ≠ "" then (class_signature_name ++ "." ++ sig) :: acc else acc)
      []

/-- `ChangedSignatureExtractor._extract_method_signatures_from_code`.
Locating the file on disk and loading the snapshot are I/O, so the
resolved path (`None` when `_find_actual_file_path` found nothing) and the
loaded `class_signatures` map (`None` when the load failed) are inputs. -/
def extract_method_signatures_from_code (workspace_path : String)
    (actual_file_path : Option String)
    (analysis_classes : Option (List (String × IndexClassEntry)))
    (code : List Char) (file_path : String) : List String :=
  if code.isEmpty || !endsWithStr file_path ".java" then []
  else
    match actual_file_path with
    | none => []
    | some afp =>
      match analysis_classes with
      | none => []
      | some classes =>
        let class_signature_name := find_class_signature_by_file_path workspace_path afp classes
        if class_signature_name = "" then []
        else
          let method_signatures : List String :=
            ((assocLookup classes class_signature_name).map
              (fun e => e.method_signature_name)).getD []
          if method_signatures = [] then []
          else extract_method_signatures_from_code_snippet code class_signature_name

/-! ## Theorems and supporting lemmas -/

/-- C7: stripping the declaration `public List<User> findAll(String name, int limit)`
yields exactly `findAll(String, int)`: return type and parameter names removed,
parameter types kept in declaration order. -/
theorem extract_method_signature_findAll_example :
    String.mk (extract_method_signature
        "public List<User> findAll(String name, int limit)".data) = "findAll(String, int)" ∧
    String.mk (extract_method_signature
        ("public List<User> findAll(String name, int limit) \x7b\n" ++
         "  return userDao.findAll(name, limit);\n\x7d").data) = "findAll(String, int)" := by
  constructor <;> rfl

theorem assocLookup_mem {α : Type} {l : List (String × α)} {k : String} {v : α}
    (h : assocLookup l k = some v) : (k, v) ∈ l := by
  induction l with
  | nil => simp [assocLookup] at h
  | cons hd tl ih =>
    obtain ⟨k0, v0⟩ := hd
    by_cases hk : k0 = k
    · subst hk
      simp [assocLookup] at h
      subst h
      exact List.mem_cons_self _ _
    · simp [assocLookup, hk] at h
      exact List.mem_cons_of_mem _ (ih h)

theorem assocLookup_of_mem_nodup {α : Type} {l : List (String × α)} {k : String} {v : α}
    (hnd : (l.map Prod.fst).Nodup) (h : (k, v) ∈ l) : assocLookup l k = some v := by
  induction l with
  | nil => simp at h
  | cons hd tl ih =>
    obtain ⟨k0, v0⟩ := hd
    simp only [List.map_cons, List.nodup_cons] at hnd
    rcases List.mem_cons.mp h with heq | hmem
    · cases heq
      simp [assocLookup]
    · have hne : k0 ≠ k := by
        intro hkk
        subst hkk
        exact hnd.1 (List.mem_map.mpr ⟨(k0, v), hmem, rfl⟩)
      simp [assocLookup, hne]
      exact ih hnd.2 hmem

theorem mem_appendCaller {l : List (String × List String)} {callee caller k x : String} :
    x ∈ assocLookupD (appendCaller l callee caller) k [] ↔
      x ∈ assocLookupD l k [] ∨ (k = callee ∧ x = caller) := by
  induction l with
  | nil =>
    by_cases hk : callee = k
    · subst hk
      simp [appendCaller, assocLookupD, assocLookup]
    · simp [appendCaller, assocLookupD, assocLookup, hk]
      intro h
      exact absurd h.symm hk
  | cons hd tl ih =>
    obtain ⟨k0, v0⟩ := hd
    by_cases hc : k0 = callee
    · subst hc
      by_cases hk : k0 = k
      · subst hk
        simp [appendCaller, assocLookupD, assocLookup]
      · simp [appendCaller, assocLookupD, assocLookup, hk]
        intro h
        exact absurd h.symm hk
    · by_cases hk : k0 = k
      · subst hk
        simp [appendCaller, assocLookupD, assocLookup, hc]
      · simpa [appendCaller, assocLookupD, assocLookup, hc, hk] using ih

theorem mem_usedFold {usedl : List String} :
    ∀ {acc : List (String × List String)} {sig k x : String},
    x ∈ assocLookupD (usedl.foldl (fun a called => appendCaller a called sig) acc) k [] ↔
      x ∈ assocLookupD acc k [] ∨ (k ∈ usedl ∧ x = sig) := by
  induction usedl with
  | nil => simp
  | cons c rest ih =>
    intro acc sig k x
    simp only [List.foldl_cons]
    rw [ih, mem_appendCaller]
    constructor
    · rintro ((h | ⟨hk, hx⟩) | ⟨hk, hx⟩)
      · exact Or.inl h
      · exact Or.inr ⟨hk ▸ List.mem_cons_self _ _, hx⟩
      · exact Or.inr ⟨List.mem_cons_of_mem _ hk, hx⟩
    · rintro (h | ⟨hk, hx⟩)
      · exact Or.inl (Or.inl h)
      · rcases List.mem_cons.mp hk with h1 | h2
        · exact Or.inl (Or.inr ⟨h1, hx⟩)
        · exact Or.inr ⟨h2, hx⟩

theorem mem_buildFold {ms : UsageMap} :
    ∀ {acc : List (String × List String)} {k x : String},
    x ∈ assocLookupD (ms.foldl (fun a e => e.2.foldl (fun a2 called => appendCaller a2 called e.1) a) acc) k [] ↔
      x ∈ assocLookupD acc k [] ∨ ∃ e ∈ ms, k ∈ e.2 ∧ x = e.1 := by
  induction ms with
  | nil => simp
  | cons hd tl ih =>
    intro acc k x
    simp only [List.foldl_cons]
    rw [ih, mem_usedFold]
    constructor
    · rintro ((h | ⟨hk, hx⟩) | ⟨e, he, hk, hx⟩)
      · exact Or.inl h
      · exact Or.inr ⟨hd, List.mem_cons_self _ _, hk, hx⟩
      · exact Or.inr ⟨e, List.mem_cons_of_mem _ he, hk, hx⟩
    · rintro (h | ⟨e, he, hk, hx⟩)
      · exact Or.inl (Or.inl h)
      · rcases List.mem_cons.mp he with h1 | h2
        · subst h1; exact Or.inl (Or.inr ⟨hk, hx⟩)
        · exact Or.inr ⟨e, h2, hk, hx⟩

theorem mem_buildCallerMapping {ms : UsageMap} {k x : String} :
    x ∈ assocLookupD (buildCallerMapping ms) k [] ↔ ∃ e ∈ ms, k ∈ e.2 ∧ x = e.1 := by
  unfold buildCallerMapping
  rw [mem_buildFold]
  simp [assocLookupD, assocLookup]

theorem value_length_le_usagePool {ms : List (String × List String)} {s : String} {l : List String}
    (h : assocLookup ms s = some l) : l.length ≤ (usagePool ms).length := by
  induction ms with
  | nil => simp [assocLookup] at h
  | cons hd tl ih =>
    obtain ⟨k0, v0⟩ := hd
    simp only [assocLookup] at h
    by_cases hk : k0 = s
    · rw [if_pos hk] at h
      injection h with h
      subst h
      simp [usagePool]
    · rw [if_neg hk] at h
      have := ih h
      simp only [usagePool, List.map_cons, List.flatten_cons, List.length_append] at this ⊢
      omega

theorem mem_usagePool {ms : List (String × List String)} {s : String} {l : List String}
    (h : assocLookup ms s = some l) : ∀ x ∈ l, x ∈ usagePool ms := by
  intro x hx
  have hm : (s, l) ∈ ms := assocLookup_mem h
  exact List.mem_flatten.mpr ⟨l, List.mem_map.mpr ⟨(s, l), hm, rfl⟩, hx⟩

theorem bfsAux_isSome_of_fuel (next : String → Except String (List String))
    (maxDepth : Nat) (pool : List String)
    (hmem : ∀ s l, next s = Except.ok l → ∀ x ∈ l, x ∈ pool)
    (hlen : ∀ s l, next s = Except.ok l → l.length ≤ pool.length) :
    ∀ (fuel : Nat) (q : List (String × Nat)) (visited : List String) (acc : Buckets),
      (∀ x ∈ q, x.1 ∈ pool) →
      q.length + (pool.length + 1) * (pool.toFinset \ visited.toFinset).card ≤ fuel →
      (bfsAux next maxDepth fuel q visited acc).isSome := by
  intro fuel
  induction fuel with
  | zero =>
    intro q visited acc hq hbound
    cases q with
    | nil => simp [bfsAux]
    | cons hd tl => simp at hbound
  | succ n ih =>
    intro q visited acc hq hbound
    cases q with
    | nil => simp [bfsAux]
    | cons hd tl =>
      obtain ⟨cur, dep⟩ := hd
      rw [bfsAux]
      by_cases hskip : cur ∈ visited ∨ maxDepth < dep
      · rw [if_pos hskip]
        apply ih tl visited acc (fun x hx => hq x (List.mem_cons_of_mem _ hx))
        simp only [List.length_cons] at hbound
        omega
      · rw [if_neg hskip]
        push_neg at hskip
        obtain ⟨hnv, hnd⟩ := hskip
        have hcurpool : cur ∈ pool := hq (cur, dep) (List.mem_cons_self _ _)
        have hcard : (pool.toFinset \ (cur :: visited).toFinset).card + 1 ≤
            (pool.toFinset \ visited.toFinset).card := by
          have hss : pool.toFinset \ (cur :: visited).toFinset ⊂
              pool.toFinset \ visited.toFinset := by
            constructor
            · intro x hx
              rw [Finset.mem_sdiff] at hx ⊢
              refine ⟨hx.1, fun hc => hx.2 ?_⟩
              rw [List.toFinset_cons, Finset.mem_insert]
              exact Or.inr hc
            · intro hsub
              have hcur : cur ∈ pool.toFinset \ visited.toFinset := by
                rw [Finset.mem_sdiff]
                exact ⟨List.mem_toFinset.mpr hcurpool,
                  fun hc => hnv (List.mem_toFinset.mp hc)⟩
              have := hsub hcur
              rw [Finset.mem_sdiff, List.toFinset_cons, Finset.mem_insert] at this
              exact this.2 (Or.inl rfl)
          exact Finset.card_lt_card hss
        by_cases hdep : dep < maxDepth
        · rw [if_pos hdep]
          cases hnext : next cur with
          | error e => simp
          | ok nbrs =>
            simp only
            apply ih
            · intro x hx
              rcases List.mem_append.mp hx with h1 | h2
              · exact hq x (List.mem_cons_of_mem _ h1)
              · obtain ⟨m, hm, hxm⟩ := List.mem_map.mp h2
                subst hxm
                exact hmem cur nbrs hnext m (List.mem_filter.mp hm).1
            · simp only [List.length_append, List.length_map]
              have hflen : ((nbrs.filter (fun m => !(cur :: visited).contains m)).length) ≤
                  pool.length := le_trans (List.length_filter_le _ _) (hlen cur nbrs hnext)
              simp only [List.length_cons] at hbound
              set c2 := (pool.toFinset \ (cur :: visited).toFinset).card with hc2
              set c1 := (pool.toFinset \ visited.toFinset).card with hc1
              have hmul : (pool.length + 1) * (c2 + 1) ≤ (pool.length + 1) * c1 :=
                Nat.mul_le_mul_left _ hcard
              rw [Nat.mul_succ] at hmul
              omega
        · rw [if_neg hdep]
          apply ih tl (cur :: visited) _ (fun x hx => hq x (List.mem_cons_of_mem _ hx))
          simp only [List.length_cons] at hbound
          have hmono : (pool.length + 1) * (pool.toFinset \ (cur :: visited).toFinset).card ≤
              (pool.length + 1) * (pool.toFinset \ visited.toFinset).card :=
            Nat.mul_le_mul_left _ (by omega)
          omega

theorem flatten_pushBucket_perm (acc : Buckets) (d : Nat) (s : String) :
    ((pushBucket acc d s).map Prod.snd).flatten.Perm ((acc.map Prod.snd).flatten ++ [s]) := by
  induction acc with
  | nil => simp [pushBucket]
  | cons hd tl ih =>
    obtain ⟨k, v⟩ := hd
    by_cases hk : k = d
    · subst hk
      simp only [pushBucket, eq_self_iff_true, if_true, List.map_cons, List.flatten_cons]
      rw [List.append_assoc, List.append_assoc]
      exact List.Perm.append_left v List.perm_append_comm
    · simp only [pushBucket, if_neg hk, List.map_cons, List.flatten_cons]
      rw [List.append_assoc]
      exact List.Perm.append_left v ih

theorem mem_flatten_pushBucket {acc : Buckets} {d : Nat} {s x : String}
    (h : x ∈ ((pushBucket acc d s).map Prod.snd).flatten) :
    x ∈ (acc.map Prod.snd).flatten ∨ x = s := by
  have := (flatten_pushBucket_perm acc d s).mem_iff.mp h
  rcases List.mem_append.mp this with h1 | h2
  · exact Or.inl h1
  · simp at h2
    exact Or.inr h2

theorem bfsAux_ok_nodup (next : String → Except String (List String)) (maxDepth : Nat) :
    ∀ (fuel : Nat) (q : List (String × Nat)) (visited : List String) (acc : Buckets),
      ((acc.map Prod.snd).flatten).Nodup →
      (∀ x ∈ (acc.map Prod.snd).flatten, x ∈ visited) →
      ∀ res, bfsAux next maxDepth fuel q visited acc = some (Except.ok res) →
        ((res.map Prod.snd).flatten).Nodup := by
  intro fuel
  induction fuel with
  | zero =>
    intro q visited acc hnd hv res hres
    cases q with
    | nil =>
      simp only [bfsAux, Option.some.injEq, Except.ok.injEq] at hres
      subst hres
      exact hnd
    | cons hd tl => simp [bfsAux] at hres
  | succ n ih =>
    intro q visited acc hnd hv res hres
    cases q with
    | nil =>
      simp only [bfsAux, Option.some.injEq, Except.ok.injEq] at hres
      subst hres
      exact hnd
    | cons hd tl =>
      obtain ⟨cur, dep⟩ := hd
      rw [bfsAux] at hres
      by_cases hskip : cur ∈ visited ∨ maxDepth < dep
      · rw [if_pos hskip] at hres
        exact ih tl visited acc hnd hv res hres
      · rw [if_neg hskip] at hres
        push_neg at hskip
        obtain ⟨hnv, _⟩ := hskip
        have hcurnot : cur ∉ (acc.map Prod.snd).flatten := fun hc => hnv (hv cur hc)
        have hnd2 : (((pushBucket acc dep cur).map Prod.snd).flatten).Nodup := by
          apply (flatten_pushBucket_perm acc dep cur).symm.nodup  -- perm from push to acc++[cur]; nodup of acc++[cur] transfers back
          rw [List.nodup_append]
          exact ⟨hnd, List.nodup_singleton cur, by
            intro a ha hb
            simp at hb
            subst hb
            exact hcurnot ha⟩
        have hv2 : ∀ x ∈ ((pushBucket acc dep cur).map Prod.snd).flatten, x ∈ cur :: visited := by
          intro x hx
          rcases mem_flatten_pushBucket hx with h1 | h2
          · exact List.mem_cons_of_mem _ (hv x h1)
          · subst h2
            exact List.mem_cons_self _ _
        by_cases hdep : dep < maxDepth
        · rw [if_pos hdep] at hres
          cases hnext : next cur with
          | error e =>
            rw [hnext] at hres
            simp at hres
          | ok nbrs =>
            rw [hnext] at hres
            exact ih _ _ _ hnd2 hv2 res hres
        · rw [if_neg hdep] at hres
          exact ih tl (cur :: visited) _ hnd2 hv2 res hres

theorem nextByUsage_mem (ms : UsageMap) (s : String) (l : List String)
    (h : nextByUsage ms s = Except.ok l) : ∀ x ∈ l, x ∈ usagePool ms := by
  unfold nextByUsage at h
  cases hl : assocLookup ms s with
  | none => rw [hl] at h; simp at h
  | some v =>
    rw [hl] at h
    injection h with h
    subst h
    exact mem_usagePool hl

theorem nextByUsage_len (ms : UsageMap) (s : String) (l : List String)
    (h : nextByUsage ms s = Except.ok l) : l.length ≤ (usagePool ms).length := by
  unfold nextByUsage at h
  cases hl : assocLookup ms s with
  | none => rw [hl] at h; simp at h
  | some v =>
    rw [hl] at h
    injection h with h
    subst h
    exact value_length_le_usagePool hl

theorem nextByCaller_mem (cm : List (String × List String)) (s : String) (l : List String)
    (h : nextByCaller cm s = Except.ok l) : ∀ x ∈ l, x ∈ usagePool cm := by
  unfold nextByCaller at h
  injection h with h
  subst h
  unfold assocLookupD
  cases hl : assocLookup cm s with
  | none => simp
  | some v =>
    simp only [Option.getD_some]
    exact mem_usagePool hl

theorem nextByCaller_len (cm : List (String × List String)) (s : String) (l : List String)
    (h : nextByCaller cm s = Except.ok l) : l.length ≤ (usagePool cm).length := by
  unfold nextByCaller at h
  injection h with h
  subst h
  unfold assocLookupD
  cases hl : assocLookup cm s with
  | none => simp
  | some v =>
    simp only [Option.getD_some]
    exact value_length_le_usagePool hl

theorem bfs_run_isSome (next : String → Except String (List String)) (pool0 : List String)
    (hmem : ∀ s l, next s = Except.ok l → ∀ x ∈ l, x ∈ pool0)
    (hlen : ∀ s l, next s = Except.ok l → l.length ≤ pool0.length)
    (maxDepth : Nat) (sig : String) :
    (bfsAux next maxDepth (bfsFuel (sig :: pool0)) [(sig, 0)] [] []).isSome := by
  apply bfsAux_isSome_of_fuel next maxDepth (sig :: pool0)
  · intro s l h x hx
    exact List.mem_cons_of_mem _ (hmem s l h x hx)
  · intro s l h
    exact le_trans (hlen s l h) (by simp)
  · intro x hx
    simp only [List.mem_singleton] at hx
    subst hx
    exact List.mem_cons_self _ _
  · simp [bfsFuel]

theorem bfs_getD_ok_nodup (next : String → Except String (List String))
    (maxDepth fuel : Nat) (sig : String) (res : Buckets)
    (h : (bfsAux next maxDepth fuel [(sig, 0)] [] []).getD (Except.error "fuel exhausted") =
      Except.ok res) : ((res.map Prod.snd).flatten).Nodup := by
  cases hb : bfsAux next maxDepth fuel [(sig, 0)] [] [] with
  | none => rw [hb] at h; simp [Option.getD] at h
  | some r =>
    rw [hb] at h
    simp only [Option.getD_some] at h
    subst h
    exact bfsAux_ok_nodup next maxDepth fuel [(sig, 0)] [] [] (by simp) (by simp) res hb

/-- C1: for every loaded snapshot, both bounded traversals terminate (the
explicit iteration bound `bfsFuel` always suffices to drain the queue), and
in any returned result each method signature appears in exactly one
depth/height bucket, exactly once: the flattened bucket lists have no
duplicate, because the single global visited set admits a signature only at
the depth/height where the breadth-first loop first reached it. -/
theorem bfs_traversals_terminate_and_bucket_once (ms : UsageMap) (sig : String)
    (maxDepth maxHeight : Nat) :
    (bfsAux (nextByUsage ms) maxDepth (bfsFuel (sig :: usagePool ms)) [(sig, 0)] [] []).isSome ∧
    (bfsAux (nextByCaller (buildCallerMapping ms)) maxHeight
        (bfsFuel (sig :: usagePool (buildCallerMapping ms))) [(sig, 0)] [] []).isSome ∧
    (∀ res, get_method_call_chain_by_depth ms sig maxDepth = Except.ok res →
        ((res.map Prod.snd).flatten).Nodup) ∧
    (∀ res, get_method_callers_by_height ms sig maxHeight = Except.ok res →
        ((res.map Prod.snd).flatten).Nodup) := by
  refine ⟨bfs_run_isSome _ _ (nextByUsage_mem ms) (nextByUsage_len ms) _ _,
    bfs_run_isSome _ _ (nextByCaller_mem _) (nextByCaller_len _) _ _, ?_, ?_⟩
  · intro res hres
    unfold get_method_call_chain_by_depth at hres
    by_cases hc : assocContains ms sig
    · rw [if_pos hc] at hres
      exact bfs_getD_ok_nodup _ _ _ _ _ hres
    · rw [if_neg hc] at hres
      simp at hres
  · intro res hres
    unfold get_method_callers_by_height at hres
    by_cases hc : assocContains ms sig
    · rw [if_pos hc] at hres
      exact bfs_getD_ok_nodup _ _ _ _ _ hres
    · rw [if_neg hc] at hres
      simp at hres

/-- C2: the caller mapping is the exact inverse of the usage edges. -/
theorem usage_iff_caller_mapping (ms : UsageMap) (hnd : (ms.map Prod.fst).Nodup)
    (M N : String) (used : List String) (hM : assocLookup ms M = some used) :
    N ∈ used ↔ M ∈ assocLookupD (buildCallerMapping ms) N [] := by
  rw [mem_buildCallerMapping]
  constructor
  · intro hN
    exact ⟨(M, used), assocLookup_mem hM, hN, rfl⟩
  · rintro ⟨⟨M2, u⟩, he, hk, hx⟩
    simp only at hx
    subst hx
    have := assocLookup_of_mem_nodup hnd he
    rw [hM] at this
    injection this with this
    subst this
    exact hk

theorem usage_iff_caller_mapping_witness :
    "N0" ∈ ["N0"] ↔ "M0" ∈ assocLookupD (buildCallerMapping [("M0", ["N0"])]) "N0" [] :=
  usage_iff_caller_mapping [("M0", ["N0"])] (by decide) "M0" "N0" ["N0"] (by decide)

/-- C3: on the linear chain A→B→C the two traversals produce exactly the
expected buckets. -/
theorem linear_chain_example :
    get_method_call_chain_by_depth [("A", ["B"]), ("B", ["C"]), ("C", [])] "A" 2 =
        Except.ok [(0, ["A"]), (1, ["B"]), (2, ["C"])] ∧
    get_method_callers_by_height [("A", ["B"]), ("B", ["C"]), ("C", [])] "C" 2 =
        Except.ok [(0, ["C"]), (1, ["B"]), (2, ["A"])] := by
  constructor <;> rfl

/-- C4: an unknown starting signature makes every traversal entry point fail. -/
theorem unknown_signature_raises (ms : UsageMap) (sig : String) (d h a b : Nat)
    (hmiss : assocLookup ms sig = none) :
    get_method_call_chain_by_depth ms sig d = Except.error ("方法签名不存在: " ++ sig) ∧
    get_method_callers_by_height ms sig h = Except.error ("方法签名不存在: " ++ sig) ∧
    get_complete_method_relationship ms sig a b = Except.error ("方法签名不存在: " ++ sig) ∧
    get_nested_method_relationship ms sig a b = Except.error ("方法签名不存在: " ++ sig) := by
  have hc : assocContains ms sig = false := by
    simp [assocContains, hmiss]
  refine ⟨?_, ?_, ?_, ?_⟩ <;>
    simp [get_method_call_chain_by_depth, get_method_callers_by_height,
      get_complete_method_relationship, get_nested_method_relationship, hc]

theorem unknown_signature_raises_witness :
    get_method_call_chain_by_depth [("A", ["B"])] "X" 1 = Except.error ("方法签名不存在: " ++ "X") ∧
    get_method_callers_by_height [("A", ["B"])] "X" 1 = Except.error ("方法签名不存在: " ++ "X") ∧
    get_complete_method_relationship [("A", ["B"])] "X" 1 1 = Except.error ("方法签名不存在: " ++ "X") ∧
    get_nested_method_relationship [("A", ["B"])] "X" 1 1 = Except.error ("方法签名不存在: " ++ "X") :=
  unknown_signature_raises [("A", ["B"])] "X" 1 1 1 1 (by decide)

theorem allCallsOutEmpty_mk_nil (ci : List (String × NestedEntry)) :
    allCallsOutEmpty (NestedEntry.mk [] ci) = entriesAllCallsOutEmpty ci := by
  simp [allCallsOutEmpty, List.isEmpty]

theorem entriesAllCallsOutEmpty_dictAssign {l : List (String × NestedEntry)} {k : String}
    {v : NestedEntry} (hl : entriesAllCallsOutEmpty l = true) (hv : allCallsOutEmpty v = true) :
    entriesAllCallsOutEmpty (dictAssign l k v) = true := by
  induction l with
  | nil => simp [dictAssign, entriesAllCallsOutEmpty, hv]
  | cons hd tl ih =>
    obtain ⟨k0, v0⟩ := hd
    simp only [entriesAllCallsOutEmpty, Bool.and_eq_true] at hl
    by_cases hk : k0 = k
    · simp [dictAssign, hk, entriesAllCallsOutEmpty, hv, hl.2]
    · simp [dictAssign, hk, entriesAllCallsOutEmpty, hl.1, ih hl.2]

theorem entriesAllCallsOutEmpty_foldlAssign (cs : List String) (f : String → NestedEntry)
    (hf : ∀ c, allCallsOutEmpty (f c) = true) :
    ∀ res, entriesAllCallsOutEmpty res = true →
      entriesAllCallsOutEmpty (cs.foldl (fun r c => dictAssign r c (f c)) res) = true := by
  induction cs with
  | nil => intro res h; simpa using h
  | cons c rest ih =>
    intro res h
    simp only [List.foldl_cons]
    exact ih _ (entriesAllCallsOutEmpty_dictAssign h (hf c))

theorem entriesAll_buildNestedCallsIn (cm : List (String × List String)) :
    ∀ (d : Nat) (sig : String) (visited : List String),
      entriesAllCallsOutEmpty (buildNestedCallsIn cm d sig visited) = true := by
  intro d
  induction d with
  | zero => intro sig visited; rfl
  | succ n ih =>
    intro sig visited
    rw [buildNestedCallsIn]
    by_cases hv : sig ∈ visited
    · rw [if_pos hv]; rfl
    · rw [if_neg hv]
      exact entriesAllCallsOutEmpty_foldlAssign _ _
        (fun c => by rw [allCallsOutEmpty_mk_nil]; exact ih c _) [] rfl

theorem entriesAll_buildNestedCallsOut (ms : UsageMap) (cm : List (String × List String)) :
    ∀ (d : Nat) (sig : String) (visited : List String),
      entriesAllCallsOutEmpty (buildNestedCallsOut ms cm d sig visited) = true := by
  intro d sig visited
  cases d with
  | zero => rfl
  | succ n =>
    rw [buildNestedCallsOut]
    by_cases hv : sig ∈ visited
    · rw [if_pos hv]; rfl
    · rw [if_neg hv]
      by_cases hc : assocContains ms sig
      · simp only [hc, Bool.not_true, Bool.false_eq_true, if_false]
        exact entriesAllCallsOutEmpty_foldlAssign _ _
          (fun c => by
            rw [allCallsOutEmpty_mk_nil]
            exact entriesAll_buildNestedCallsIn cm n c _) [] rfl
      · simp only [Bool.not_eq_true] at hc
        simp only [hc, Bool.not_false, if_true]
        rfl

/-- C10: the forward nested graph expands callees only one level: in any
result of `get_nested_method_relationship`, every entry reachable in the
`calls_out` tree carries an empty `calls_out` sub-map (the deeper recursion
only follows callers), and — because each branch works on its own copy of
the visited set — the same signature can appear in two different branches,
as the concrete snapshot S→{P,Q}, R→{P,Q} shows: R (and S) occur under both
the P branch and the Q branch. -/
theorem nested_calls_out_one_level (ms : UsageMap) (sig : String) (maxCallsOut maxCallsIn : Nat) :
    (∀ res, get_nested_method_relationship ms sig maxCallsOut maxCallsIn = Except.ok res →
        entriesAllCallsOutEmpty res.calls_out = true) ∧
    get_nested_method_relationship [("S", ["P", "Q"]), ("R", ["P", "Q"]), ("P", []), ("Q", [])]
        "S" 3 3 =
      Except.ok
        ⟨[("P", NestedEntry.mk [] [("S", NestedEntry.mk [] []), ("R", NestedEntry.mk [] [])]),
          ("Q", NestedEntry.mk [] [("S", NestedEntry.mk [] []), ("R", NestedEntry.mk [] [])])],
         []⟩ := by
  constructor
  · intro res hres
    unfold get_nested_method_relationship at hres
    by_cases hc : assocContains ms sig
    · rw [if_pos hc] at hres
      injection hres with hres
      subst hres
      exact entriesAll_buildNestedCallsOut ms _ maxCallsOut sig []
    · rw [if_neg hc] at hres
      simp at hres
  · rfl

theorem mem_filter_by_level {files : List PMDFileInfo} {pl cl : Int} {fo : PMDFileInfo} :
    fo ∈ filter_by_level files pl cl ↔
      ∃ fi ∈ files,
        (fi.violations.filter
            (fun v => v.priority ≤ (if fi.in_change then cl else pl))).isEmpty = false ∧
        fo = { fi with violations := (fi.violations.filter
            (fun v => v.priority ≤ (if fi.in_change then cl else pl))) } := by
  induction files with
  | nil => simp [filter_by_level]
  | cons hd tl ih =>
    simp only [filter_by_level, List.foldr_cons] at ih ⊢
    cases he : (hd.violations.filter
        (fun v => v.priority ≤ (if hd.in_change then cl else pl))).isEmpty with
    | true =>
      simp only [he, eq_self_iff_true, if_true]
      rw [ih]
      constructor
      · rintro ⟨fi, hfi, hne, heq⟩
        exact ⟨fi, List.mem_cons_of_mem _ hfi, hne, heq⟩
      · rintro ⟨fi, hfi, hne, heq⟩
        rcases List.mem_cons.mp hfi with h1 | h2
        · subst h1
          rw [he] at hne
          cases hne
        · exact ⟨fi, h2, hne, heq⟩
    | false =>
      simp only [he, Bool.false_eq_true, if_false, List.mem_cons]
      rw [ih]
      constructor
      · rintro (h1 | ⟨fi, hfi, hne, heq⟩)
        · exact ⟨hd, Or.inl rfl, he, h1⟩
        · exact ⟨fi, Or.inr hfi, hne, heq⟩
      · rintro ⟨fi, hfi, hne, heq⟩
        rcases hfi with h1 | h2
        · subst h1
          exact Or.inl heq
        · exact Or.inr ⟨fi, h2, hne, heq⟩

/-- C8: the violation filter keeps exactly the violations whose priority is
at most the applicable level; a file whose violations are all filtered out
is dropped, as in the concrete [1,2,3,4]-with-level-2 report. -/
theorem filter_by_level_exact (files : List PMDFileInfo) (project_level change_level : Int) :
    (∀ fo ∈ filter_by_level files project_level change_level,
        fo.violations ≠ [] ∧
        ∃ fi ∈ files,
          fo = { fi with violations := (fi.violations.filter
              (fun v => v.priority ≤ (if fi.in_change then change_level else project_level))) }) ∧
    (∀ fi ∈ files,
        fi.violations.filter
            (fun v => v.priority ≤ (if fi.in_change then change_level else project_level)) ≠ [] →
        { fi with violations := (fi.violations.filter
            (fun v => v.priority ≤ (if fi.in_change then change_level else project_level))) } ∈
          filter_by_level files project_level change_level) ∧
    filter_by_level
        [⟨"f.java", [⟨"r1", 1, 0, 0⟩, ⟨"r2", 2, 0, 0⟩, ⟨"r3", 3, 0, 0⟩, ⟨"r4", 4, 0, 0⟩], false⟩,
         ⟨"g.java", [⟨"r5", 3, 0, 0⟩], false⟩] 2 5 =
      [⟨"f.java", [⟨"r1", 1, 0, 0⟩, ⟨"r2", 2, 0, 0⟩], false⟩] := by
  refine ⟨?_, ?_, by decide⟩
  · intro fo hfo
    obtain ⟨fi, hfi, hne, heq⟩ := mem_filter_by_level.mp hfo
    constructor
    · rw [heq]
      simp only [ne_eq]
      intro hnil
      rw [hnil] at hne
      simp at hne
    · exact ⟨fi, hfi, heq⟩
  · intro fi hfi hne
    apply mem_filter_by_level.mpr
    refine ⟨fi, hfi, ?_, rfl⟩
    cases hfe : (fi.violations.filter
        (fun v => v.priority ≤ (if fi.in_change then change_level else project_level))) with
    | nil => exact absurd hfe hne
    | cons a b => rfl

theorem assocContains_dictAssign_self {α : Type} (l : List (String × α)) (k : String) (v : α) :
    assocContains (dictAssign l k v) k = true := by
  induction l with
  | nil => simp [dictAssign, assocContains, assocLookup]
  | cons hd tl ih =>
    obtain ⟨k0, v0⟩ := hd
    by_cases hk : k0 = k
    · simp [dictAssign, hk, assocContains, assocLookup]
    · simp [dictAssign, hk, assocContains, assocLookup, ih]
      simpa [assocContains] using ih

theorem assocContains_dictAssign_of {α : Type} {l : List (String × α)} {k : String}
    (k2 : String) (v : α) (h : assocContains l k = true) :
    assocContains (dictAssign l k2 v) k = true := by
  induction l with
  | nil => simp [assocContains, assocLookup] at h
  | cons hd tl ih =>
    obtain ⟨k0, v0⟩ := hd
    simp only [dictAssign]
    by_cases hk2 : k0 = k2
    · rw [if_pos hk2]
      by_cases hk : k0 = k
      · subst hk
        simp [assocContains, assocLookup]
      · simp only [assocContains, assocLookup, if_neg hk] at h
        simpa [assocContains, assocLookup, hk] using h
    · rw [if_neg hk2]
      by_cases hk : k0 = k
      · simp [assocContains, assocLookup, hk]
      · simp only [assocContains, assocLookup, hk, if_neg hk] at h
        simpa [assocContains, assocLookup, hk] using ih h

theorem foldl_pres {α β : Type} (f : β → α → β) (P : β → Prop)
    (hpres : ∀ b a, P b → P (f b a)) :
    ∀ (l : List α) (b : β), P b → P (l.foldl f b) := by
  intro l
  induction l with
  | nil => intro b hb; simpa using hb
  | cons hd tl ih =>
    intro b hb
    simp only [List.foldl_cons]
    exact ih _ (hpres b hd hb)

theorem foldl_pred_of_mem {α β : Type} (f : β → α → β) (P : β → Prop)
    (hpres : ∀ b a, P b → P (f b a)) (x : α) (hP : ∀ b, P (f b x)) :
    ∀ (l : List α), x ∈ l → ∀ (b : β), P (l.foldl f b) := by
  intro l
  induction l with
  | nil => intro hx; cases hx
  | cons hd tl ih =>
    intro hx b
    simp only [List.foldl_cons]
    rcases List.mem_cons.mp hx with h1 | h2
    · subst h1
      exact foldl_pres f P hpres tl _ (hP b)
    · exact ih h2 _

/-- C5 counterexample: indexing a single class `p.A` (name not ending in
`Impl`, nothing filtered) registers the Impl-aliased method key
`p.AImpl.f()`, but `class_signatures` holds only the original `p.A` entry —
no `p.AImpl` alias entry exists in the snapshot's class map. -/
theorem impl_alias_missing_from_class_map_cex :
    assocContains (analyze_project emptyConfig emptyState
      [("p/A.java", sampleFileA.data)]).method_signatures "p.AImpl.f()" = true ∧
    assocContains (analyze_project emptyConfig emptyState
      [("p/A.java", sampleFileA.data)]).class_signatures "p.A" = true ∧
    assocContains (analyze_project emptyConfig emptyState
      [("p/A.java", sampleFileA.data)]).class_signatures "p.AImpl" = false := by
  refine ⟨?_, ?_, ?_⟩ <;> rfl

/-- C5 amended: the `Impl` aliasing acts on the method-signature keys, not
on the class map: for a class whose name does not end in `Impl`, every
extracted method whose two signature keys pass the method filter is
registered under both the class key and the `Impl`-aliased key, a class
already ending in `Impl` generates no alias, and creating the class
signature never adds an `Impl`-aliased class entry. -/
theorem impl_alias_registration
    (cfg : AnalyzerConfig) (maps : SignatureMaps) (class_content : List Char)
    (name : String) (fields field_names method_names : List String) (class_path : String)
    (hni : endsWithStr name "Impl" = false) :
    generate_impl_signatures name = [name, name ++ "Impl"] ∧
    (∀ n, endsWithStr n "Impl" = true → generate_impl_signatures n = [n]) ∧
    (∀ m ∈ extract_methods class_content,
      method_sig_filtered cfg (name ++ "." ++ String.mk (extract_method_signature m)) = false →
      method_sig_filtered cfg (name ++ "Impl" ++ "." ++ String.mk (extract_method_signature m)) = false →
      assocContains
          (analyze_class_methods cfg maps class_content name fields).1.method_signatures
          (name ++ "." ++ String.mk (extract_method_signature m)) = true ∧
      assocContains
          (analyze_class_methods cfg maps class_content name fields).1.method_signatures
          (name ++ "Impl" ++ "." ++ String.mk (extract_method_signature m)) = true) ∧
    assocContains
        (create_class_signature maps class_content name field_names method_names
          class_path).class_signatures (name ++ "Impl") =
      assocContains maps.class_signatures (name ++ "Impl") := by
  have hgen : generate_impl_signatures name = [name, name ++ "Impl"] := by
    unfold generate_impl_signatures
    rw [hni]
    simp
  refine ⟨hgen, ?_, ?_, ?_⟩
  · intro n hn
    unfold generate_impl_signatures
    rw [hn]
    simp
  · intro m hm hf1 hf2
    unfold analyze_class_methods
    refine foldl_pred_of_mem (analyze_one_method cfg name fields)
      (fun acc => assocContains acc.1.method_signatures
          (name ++ "." ++ String.mk (extract_method_signature m)) = true ∧
        assocContains acc.1.method_signatures
          (name ++ "Impl" ++ "." ++ String.mk (extract_method_signature m)) = true)
      ?_ m ?_ _ hm _
    · intro b a hb
      unfold analyze_one_method
      refine foldl_pres (register_method_signature cfg fields a)
        (fun acc => assocContains acc.1.method_signatures
            (name ++ "." ++ String.mk (extract_method_signature m)) = true ∧
          assocContains acc.1.method_signatures
            (name ++ "Impl" ++ "." ++ String.mk (extract_method_signature m)) = true)
        ?_ _ _ hb
      intro b2 a2 hb2
      simp only [register_method_signature]
      by_cases hfk : method_sig_filtered cfg
          (a2 ++ "." ++ String.mk (extract_method_signature a)) = true
      · rw [if_pos hfk]
        exact hb2
      · rw [if_neg hfk]
        exact ⟨assocContains_dictAssign_of _ _ hb2.1, assocContains_dictAssign_of _ _ hb2.2⟩
    · intro b
      unfold analyze_one_method
      rw [hgen]
      simp only [List.foldl_cons, List.foldl_nil]
      simp only [register_method_signature]
      rw [if_neg (by simp [hf2])]
      rw [if_neg (by simp [hf1])]
      exact ⟨assocContains_dictAssign_of _ _ (assocContains_dictAssign_self _ _ _),
        assocContains_dictAssign_self _ _ _⟩
  · unfold create_class_signature
    have hne : name ++ "Impl" ≠ name := by
      intro hc
      have := congrArg String.length hc
      simp [String.length_append] at this
      exact absurd this (by decide)
    dsimp only
    generalize maps.class_signatures = l
    induction l with
    | nil => simp [dictAssign, assocContains, assocLookup, hne.symm]
    | cons hd tl ih =>
      obtain ⟨k0, v0⟩ := hd
      by_cases hk : k0 = name
      · subst hk
        simp [dictAssign, assocContains, assocLookup, hne.symm]
      · simp only [dictAssign, if_neg hk, assocContains, assocLookup]
        by_cases hki : k0 = name ++ "Impl"
        · simp [hki]
        · simpa [assocContains, assocLookup, hki] using ih

theorem impl_alias_registration_witness :
    generate_impl_signatures "p.A" = ["p.A", "p.A" ++ "Impl"] ∧
    (∀ n, endsWithStr n "Impl" = true → generate_impl_signatures n = [n]) ∧
    (∀ m ∈ extract_methods "public class A { void f() { } }".data,
      method_sig_filtered emptyConfig
          ("p.A" ++ "." ++ String.mk (extract_method_signature m)) = false →
      method_sig_filtered emptyConfig
          ("p.A" ++ "Impl" ++ "." ++ String.mk (extract_method_signature m)) = false →
      assocContains
          (analyze_class_methods emptyConfig ⟨[], [], []⟩
            "public class A { void f() { } }".data "p.A" []).1.method_signatures
          ("p.A" ++ "." ++ String.mk (extract_method_signature m)) = true ∧
      assocContains
          (analyze_class_methods emptyConfig ⟨[], [], []⟩
            "public class A { void f() { } }".data "p.A" []).1.method_signatures
          ("p.A" ++ "Impl" ++ "." ++ String.mk (extract_method_signature m)) = true) ∧
    assocContains
        (create_class_signature ⟨[], [], []⟩ "public class A { void f() { } }".data "p.A"
          [] [] "p/A.java").class_signatures ("p.A" ++ "Impl") =
      assocContains (SignatureMaps.mk [] [] []).class_signatures ("p.A" ++ "Impl") :=
  impl_alias_registration emptyConfig ⟨[], [], []⟩
    "public class A { void f() { } }".data "p.A" [] [] [] "p/A.java" (by rfl)

/-- C9: `analyze_project` is deterministic.  The `os.walk` enumeration of a
byte-identical tree yields the same (path, content) list, and the method
starts by clearing the three signature maps and rebuilds every other
attribute from scratch, so its result does not depend on any prior analyzer
state: two runs — even on instances carrying different leftover state —
produce identical `class_signatures`, `method_signatures` and
`field_signatures` maps. -/
theorem analyze_project_deterministic (cfg : AnalyzerConfig)
    (files : List (String × List Char)) (s1 s2 : AnalyzerState) :
    (analyze_project cfg s1 files).class_signatures =
        (analyze_project cfg s2 files).class_signatures ∧
      (analyze_project cfg s1 files).method_signatures =
        (analyze_project cfg s2 files).method_signatures ∧
      (analyze_project cfg s1 files).field_signatures =
        (analyze_project cfg s2 files).field_signatures :=
  ⟨rfl, rfl, rfl⟩

theorem mem_snippet_sigs {code : List Char} {csn sig : String}
    (h : sig ∈ extract_method_signatures_from_code_snippet code csn) :
    ∃ m ∈ reFindIter methodPattern code,
      sig = csn ++ "." ++ String.mk (extract_method_signature
        (extract_method_content_optimized code m.mstart)) := by
  unfold extract_method_signatures_from_code_snippet at h
  by_cases hg : code.isEmpty || csn = ""
  · rw [if_pos hg] at h
    cases h
  · rw [if_neg hg] at h
    clear hg
    revert h
    generalize reFindIter methodPattern code = L
    intro h
    induction L with
    | nil => cases h
    | cons hd tl ih =>
      simp only [List.foldr_cons] at h
      by_cases hs : String.mk (extract_method_signature
          (extract_method_content_optimized code hd.mstart)) ≠ ""
      · rw [if_pos hs] at h
        rcases List.mem_cons.mp h with h1 | h2
        · exact ⟨hd, List.mem_cons_self _ _, h1⟩
        · obtain ⟨m, hm, he⟩ := ih h2
          exact ⟨m, List.mem_cons_of_mem _ hm, he⟩
      · rw [if_neg hs] at h
        obtain ⟨m, hm, he⟩ := ih h
        exact ⟨m, List.mem_cons_of_mem _ hm, he⟩

/-- C6 counterexample: for a fragment introducing a method `bar()` that is
absent from the located class's indexed method signatures, the extractor
still returns `p.C.bar()` — no membership intersection against the index
happens (the index is consulted only to locate the class by path and to
require a non-empty indexed method list). -/
theorem changed_signature_no_intersection_cex :
    extract_method_signatures_from_code "/ws" (some "a/b/C.java")
        (some [("p.C", ⟨"a/b/C.java", ["p.C.foo()"]⟩)])
        "public void bar() { x = 1; }".data "a/b/C.java" = ["p.C.bar()"] ∧
    "p.C.bar()" ∉
      (IndexClassEntry.mk "a/b/C.java" ["p.C.foo()"]).method_signature_name := by
  constructor
  · rfl
  · decide

/-- C6 amended: a returned signature is each method re-derived from the
fragment, prefixed with the class located by normalized-relative-path (or
filename) matching; it is returned regardless of membership in that class's
indexed method signatures — the index only has to locate the class and
offer a non-empty indexed method list. -/
theorem changed_signatures_built_without_index_membership
    (workspace_path : String) (actual_file_path : Option String)
    (analysis_classes : Option (List (String × IndexClassEntry)))
    (code : List Char) (file_path : String) (sig : String)
    (hsig : sig ∈ extract_method_signatures_from_code workspace_path actual_file_path
      analysis_classes code file_path) :
    ∃ afp classes,
      actual_file_path = some afp ∧ analysis_classes = some classes ∧
      find_class_signature_by_file_path workspace_path afp classes ≠ "" ∧
      (∃ entry, assocLookup classes
          (find_class_signature_by_file_path workspace_path afp classes) = some entry ∧
        entry.method_signature_name ≠ []) ∧
      ∃ m ∈ reFindIter methodPattern code,
        sig = find_class_signature_by_file_path workspace_path afp classes ++ "." ++
          String.mk (extract_method_signature
            (extract_method_content_optimized code m.mstart)) := by
  unfold extract_method_signatures_from_code at hsig
  by_cases hg : code.isEmpty || !endsWithStr file_path ".java"
  · rw [if_pos hg] at hsig
    cases hsig
  · rw [if_neg hg] at hsig
    cases actual_file_path with
    | none => cases hsig
    | some afp =>
      cases analysis_classes with
      | none => cases hsig
      | some classes =>
        change sig ∈
          (if find_class_signature_by_file_path workspace_path afp classes = "" then []
           else if ((assocLookup classes
                  (find_class_signature_by_file_path workspace_path afp classes)).map
                (fun e => e.method_signature_name)).getD [] = ([] : List String) then []
           else extract_method_signatures_from_code_snippet code
             (find_class_signature_by_file_path workspace_path afp classes)) at hsig
        by_cases hcs : find_class_signature_by_file_path workspace_path afp classes = ""
        · rw [if_pos hcs] at hsig
          cases hsig
        · rw [if_neg hcs] at hsig
          refine ⟨afp, classes, rfl, rfl, hcs, ?_⟩
          cases hl : assocLookup classes
              (find_class_signature_by_file_path workspace_path afp classes) with
          | none =>
            rw [hl] at hsig
            cases hsig
          | some entry =>
            rw [hl] at hsig
            simp only [Option.map_some', Option.getD_some] at hsig
            by_cases hne : entry.method_signature_name = []
            · rw [if_pos hne] at hsig
              cases hsig
            · rw [if_neg hne] at hsig
              exact ⟨⟨entry, rfl, hne⟩, mem_snippet_sigs hsig⟩

theorem changed_signatures_built_without_index_membership_witness :
    ∃ afp classes,
      (some "a/b/C.java" : Option String) = some afp ∧
      (some [("p.C", IndexClassEntry.mk "a/b/C.java" ["p.C.foo()"])] :
        Option (List (String × IndexClassEntry))) = some classes ∧
      find_class_signature_by_file_path "/ws" afp classes ≠ "" ∧
      (∃ entry, assocLookup classes
          (find_class_signature_by_file_path "/ws" afp classes) = some entry ∧
        entry.method_signature_name ≠ []) ∧
      ∃ m ∈ reFindIter methodPattern "public void bar() { x = 1; }".data,
        "p.C.bar()" = find_class_signature_by_file_path "/ws" afp classes ++ "." ++
          String.mk (extract_method_signature
            (extract_method_content_optimized "public void bar() { x = 1; }".data m.mstart)) :=
  changed_signatures_built_without_index_membership "/ws" (some "a/b/C.java")
    (some [("p.C", IndexClassEntry.mk "a/b/C.java" ["p.C.foo()"])])
    "public void bar() { x = 1; }".data "a/b/C.java" "p.C.bar()" (by decide)
